import Mathlib

/-! Guardrail: registry, executor and MCP adapter.

A shallow embedding of `tool/registry.go`, `tool/tool.go`, `tool/spec.go`,
`execution/executor.go`, `execution/invocation.go`, `execution/result.go` and
`adapter/mcp/adapter.go`.

Conventions of the embedding:

* a Go `error` is `Option GoError` (`none` is the nil error);
* a Go interface value that may be nil is an `Option` (`none` is nil);
* a method with a pointer receiver takes the receiver state and returns the
  receiver state after the call next to its Go results, so that "the registry
  is unchanged" is a statement about the returned state;
* `map[string]Tool` is a finite map with unique keys (`AList`); the registry
  is the one allocated by `NewRegistry` (the `tools` field is unexported, so
  no other package can install a different map);
* the `sync.RWMutex` is not modelled: every method body is one atomic step;
* the readings of the wall clock are inputs (`Clock`);
* the calls a method makes to its collaborators are recorded in a trace of
  `Event`s, in program order;
* the functions of `encoding/json` and `fmt` that the adapter calls are
  modelled from the documentation of the Go standard library; the conversion
  between `float64` and text and the verb `%q` are not computed: a `float64`
  carries the texts printed for it, and `%q` is a parameter;
* the `mcp.Server` is the list of the `AddTool` calls it accepted, and
  `AddTool` panics on a schema that does not have the type `object`.
-/

namespace Guardrail

/-! ## Values, errors, contexts -/

/-- A value of type `float64`.  Floating-point arithmetic and the conversion
between floats and decimal text are not modelled: a value is its IEEE 754 bit
pattern together with the two texts the standard library prints for it.
`jsonText` is the text `json.Marshal` writes, `none` for NaN and the
infinities, which `json.Marshal` rejects; `fmtText` is the text of the verb
`%v`. -/
structure Float64 where
  bits : Nat
  jsonText : Option String
  fmtText : String

/-- Go values of static type `any` that the dispatch core passes around without
inspecting them.  `nil` is the nil interface value; `num n` is a value of type
`int` with the value `n`; `float f` is a value of type `float64`; `arr` is a
non-nil `[]any`; `obj` is a non-nil `map[string]any`, one pair per key;
`nilMap` is a nil `map[string]any` stored in the interface (not equal to
`nil`); `fn` stands for values such as functions and channels, which are not
JSON-like, `id` being the address `fmt` prints. -/
inductive GoAny where
  | nil
  | str (s : String)
  | bool (b : Bool)
  | num (n : Int)
  | arr (xs : List GoAny)
  | obj (kvs : List (String × GoAny))
  | fn (id : Nat)
  | nilMap
  | float (f : Float64)

/-- The Go test `v == nil` on a value of type `any`. -/
def GoAny.isNil : GoAny → Bool
  | .nil => true
  | _ => false

/-- Go `error` values.  The four package-level sentinels are distinct
constructors, since Go compares them by identity; `errorsNew msg` is a value
made by `errors.New(msg)` at a call site (never identical to a sentinel, even
with the same text); `wrap msg inner` is a value made by `fmt.Errorf` with
`%w`. -/
inductive GoError where
  | ErrToolExists
  | ErrToolNotFound
  | ErrNilRegistry
  | ErrNilDeps
  | errorsNew (msg : String)
  | wrap (msg : String) (inner : GoError)
  deriving DecidableEq, Repr

/-- The method `Error()` of an error value. -/
def GoError.Error : GoError → String
  | .ErrToolExists => "tool already exists"
  | .ErrToolNotFound => "tool not found"
  | .ErrNilRegistry => "registry is nil"
  | .ErrNilDeps => "adapter: nil dependency"
  | .errorsNew msg => msg
  | .wrap msg _ => msg

/-- A `context.Context`.  The core never looks inside it; the token identifies
which context a callee received. -/
structure Context where
  id : Nat
  deriving DecidableEq, Repr

/-! ## package tool -/

/-- The struct `tool.Spec`; a nil `InputSchema` map is `none`. -/
structure Spec where
  Title : String
  Description : String
  InputSchema : Option (List (String × GoAny))

/-- A non-nil value of the interface `tool.Tool`.  `Name` is the stable
identifier the interface documents; `Execute` gives the `(any, error)` pair
one call returns. -/
structure Tool where
  Name : String
  Spec : Spec
  Execute : Context → GoAny → GoAny × Option GoError

/-- The struct `tool.Registry`: the map from names to tools. -/
structure Registry where
  tools : AList (fun _ : String => Tool)

/-- The constructor `tool.NewRegistry`: an empty, allocated map. -/
def NewRegistry : Registry :=
  { tools := ∅ }

/-- The method `Registry.Add`: the returned error and the registry afterwards. -/
def Registry.Add (r : Registry) (t : Option Tool) : Option GoError × Registry :=
  match t with
  | none => (some (GoError.errorsNew "tool is nil"), r)
  | some t =>
    let name := t.Name
    if name = "" then
      (some (GoError.errorsNew "tool name is empty"), r)
    else if (r.tools.lookup name).isSome then
      (some GoError.ErrToolExists, r)
    else
      (none, { tools := r.tools.insert name t })

/-- The method `Registry.Get`: the returned `(Tool, error)` pair and the
registry afterwards. -/
def Registry.Get (r : Registry) (name : String) :
    (Option Tool × Option GoError) × Registry :=
  if name = "" then
    ((none, some (GoError.errorsNew "tool name is empty")), r)
  else
    match r.tools.lookup name with
    | none => ((none, some GoError.ErrToolNotFound), r)
    | some t => ((some t, none), r)

/-- The method `Registry.ListNames`: one name per map entry.  Go leaves the
order of the range loop unspecified; the model lists the entries in one fixed
order, and the properties proved below do not depend on it. -/
def Registry.ListNames (r : Registry) : List String × Registry :=
  (r.tools.entries.map (fun e => e.1), r)

/-- The method `Registry.ListTools`: one tool per map entry (order as for
`ListNames`). -/
def Registry.ListTools (r : Registry) : List Tool × Registry :=
  (r.tools.entries.map (fun e => e.2), r)

/-- The registries a program can hold: `NewRegistry()` followed by any sequence
of calls of the four methods. -/
inductive Registry.Reachable : Registry → Prop where
  | new : Registry.Reachable NewRegistry
  | add (r : Registry) (t : Option Tool) :
      Registry.Reachable r → Registry.Reachable (r.Add t).2
  | get (r : Registry) (name : String) :
      Registry.Reachable r → Registry.Reachable (r.Get name).2
  | listNames (r : Registry) :
      Registry.Reachable r → Registry.Reachable r.ListNames.2
  | listTools (r : Registry) :
      Registry.Reachable r → Registry.Reachable r.ListTools.2

/-! ## package execution -/

/-- The struct `execution.Caller` (the field `Type` is written `Type_`). -/
structure Caller where
  ID : String
  Type_ : String
  Roles : List String
  TenantID : String

/-- The struct `execution.Invocation`. -/
structure Invocation where
  ID : String
  ToolName : String
  Input : GoAny
  Caller : Caller
  Metadata : List (String × String)
  StartTime : Int

/-- The struct `execution.Result`; `Duration` is in nanoseconds. -/
structure Result where
  Output : GoAny
  Error : Option GoError
  Duration : Int

/-- The struct `execution.Executor`; a nil `registry` pointer is `none`. -/
structure Executor where
  registry : Option Registry

/-- The constructor `execution.NewExecutor`. -/
def NewExecutor (registry : Option Registry) : Executor :=
  { registry := registry }

/-- The two clock readings one call of `Executor.Execute` takes: `start` is
`time.Now()` on entry, `stop` is the reading inside the single `time.Since(start)`
evaluated where the call returns. -/
structure Clock where
  start : Int
  stop : Int

/-- The value of `time.Since(start)`. -/
def Clock.since (clk : Clock) : Int :=
  clk.stop - clk.start

/-- The calls `Executor.Execute` makes to its collaborators. -/
inductive Event where
  | registryGet (name : String)
  | toolExecute (t : Tool) (ctx : Context) (input : GoAny)

/-- Whether the event is a call of some tool's `Execute`. -/
def Event.isToolExecute : Event → Bool
  | .toolExecute _ _ _ => true
  | .registryGet _ => false

/-- The method `Executor.Execute` on a possibly nil receiver: the returned
`Result` and the trace of calls made.  `none` is the nil-interface panic Go
would raise if `Get` returned a nil tool together with a nil error. -/
def Executor.Execute (e : Option Executor) (clk : Clock) (ctx : Context)
    (inv : Invocation) : Option (Result × List Event) :=
  match e with
  | none =>
    some ({ Output := GoAny.nil, Error := some GoError.ErrNilRegistry,
            Duration := clk.since }, [])
  | some ex =>
    match ex.registry with
    | none =>
      some ({ Output := GoAny.nil, Error := some GoError.ErrNilRegistry,
              Duration := clk.since }, [])
    | some reg =>
      if inv.ToolName = "" then
        some ({ Output := GoAny.nil,
                Error := some (GoError.errorsNew "invocation tool name is empty"),
                Duration := clk.since }, [])
      else
        match (reg.Get inv.ToolName).1 with
        | (_, some err) =>
          some ({ Output := GoAny.nil, Error := some err, Duration := clk.since },
                [Event.registryGet inv.ToolName])
        | (none, none) => none
        | (some t, none) =>
          let r := t.Execute ctx inv.Input
          some ({ Output := r.1, Error := r.2, Duration := clk.since },
                [Event.registryGet inv.ToolName, Event.toolExecute t ctx inv.Input])

/-- The property "error is present XOR output is present" of a `Result`. -/
def Result.errorXorOutput (res : Result) : Bool :=
  xor res.Error.isSome (!res.Output.isNil)

/-! ## encoding/json and fmt, as far as the adapter calls them

These are library functions, not code of the repository.  They are modelled
from the documentation of the Go standard library on the values of `GoAny`. -/

/-- The order of Go strings (`<` on strings), on the code points of the text;
it agrees with the byte order of the UTF-8 encoding. -/
def codesLess : List Nat → List Nat → Bool
  | [], [] => false
  | [], _ :: _ => true
  | _ :: _, [] => false
  | a :: as, b :: bs =>
    if a < b then true else if b < a then false else codesLess as bs

/-- The Go comparison `s < t` of two strings. -/
def stringLess (s t : String) : Bool :=
  codesLess (s.data.map Char.toNat) (t.data.map Char.toNat)

/-- Insertion of one map entry into a list of entries sorted by key. -/
def insertByKey {α : Type} (kv : String × α) : List (String × α) → List (String × α)
  | [] => [kv]
  | x :: xs => if stringLess kv.1 x.1 then kv :: x :: xs else x :: insertByKey kv xs

/-- The entries of a map in the order of their keys, as `encoding/json` and
`fmt` visit them. -/
def sortByKey {α : Type} : List (String × α) → List (String × α)
  | [] => []
  | x :: xs => insertByKey x (sortByKey xs)

/-- One lower-case hexadecimal digit. -/
def hexDigit (n : Nat) : Char :=
  if n < 10 then Char.ofNat (48 + n) else Char.ofNat (87 + n)

/-- The text `json.Marshal` writes for one character of a string: backslash and
double quote are escaped, control characters are written with their short
escape or as `\u00XX`, the characters `<`, `>`, `&`, U+2028 and U+2029 are
written as `\uXXXX`, every other character is copied. -/
def jsonEscapeChar (c : Char) : String :=
  if c.toNat = 92 then "\\\\"
  else if c.toNat = 34 then "\\\""
  else if c.toNat = 8 then "\\b"
  else if c.toNat = 12 then "\\f"
  else if c.toNat = 10 then "\\n"
  else if c.toNat = 13 then "\\r"
  else if c.toNat = 9 then "\\t"
  else if c.toNat < 32 then
    "\\u00" ++ String.mk [hexDigit (c.toNat / 16), hexDigit (c.toNat % 16)]
  else if c.toNat = 60 then "\\u003c"
  else if c.toNat = 62 then "\\u003e"
  else if c.toNat = 38 then "\\u0026"
  else if c.toNat = 8232 then "\\u2028"
  else if c.toNat = 8233 then "\\u2029"
  else String.mk [c]

/-- The JSON string literal `json.Marshal` writes for a Go string. -/
def jsonQuote (s : String) : String :=
  "\"" ++ String.join (s.data.map jsonEscapeChar) ++ "\""

mutual
/-- The function `json.Marshal` on a value of type `any`: the JSON text, or the
error for a value of an unsupported type.  Maps are written with their keys
sorted, without white space. -/
def jsonMarshal : GoAny → Except GoError String
  | .nil => .ok "null"
  | .nilMap => .ok "null"
  | .str s => .ok (jsonQuote s)
  | .bool b => .ok (if b then "true" else "false")
  | .num n => .ok (toString n)
  | .arr xs =>
    match jsonMarshalList xs with
    | .ok ss => .ok ("[" ++ ",".intercalate ss ++ "]")
    | .error e => .error e
  | .obj kvs =>
    match jsonMarshalFields kvs with
    | .ok fs =>
      .ok ("\x7b" ++ ",".intercalate ((sortByKey fs).map fun f => jsonQuote f.1 ++ ":" ++ f.2)
        ++ "\x7d")
    | .error e => .error e
  | .fn _ => .error (GoError.errorsNew "json: unsupported type: func()")
  | .float f =>
    match f.jsonText with
    | some s => .ok s
    | none => .error (GoError.errorsNew ("json: unsupported value: " ++ f.fmtText))
/-- The JSON texts of the elements of a slice. -/
def jsonMarshalList : List GoAny → Except GoError (List String)
  | [] => .ok []
  | x :: xs =>
    match jsonMarshal x, jsonMarshalList xs with
    | .ok s, .ok ss => .ok (s :: ss)
    | .error e, _ => .error e
    | .ok _, .error e => .error e
/-- The JSON texts of the values of a map, each with its key. -/
def jsonMarshalFields : List (String × GoAny) → Except GoError (List (String × String))
  | [] => .ok []
  | (k, v) :: kvs =>
    match jsonMarshal v, jsonMarshalFields kvs with
    | .ok s, .ok fs => .ok ((k, s) :: fs)
    | .error e, _ => .error e
    | .ok _, .error e => .error e
end

mutual
/-- The function `fmt.Sprintf("%v", v)` on a value of type `any`. -/
def fmtSprintV : GoAny → String
  | .nil => "<nil>"
  | .nilMap => "map[]"
  | .str s => s
  | .bool b => if b then "true" else "false"
  | .num n => toString n
  | .arr xs => "[" ++ " ".intercalate (fmtSprintVList xs) ++ "]"
  | .obj kvs =>
    "map[" ++ " ".intercalate ((sortByKey (fmtSprintVFields kvs)).map fun f => f.1 ++ ":" ++ f.2)
      ++ "]"
  | .fn id => "0x" ++ String.mk (Nat.toDigits 16 id)
  | .float f => f.fmtText
/-- The `%v` texts of the elements of a slice. -/
def fmtSprintVList : List GoAny → List String
  | [] => []
  | x :: xs => fmtSprintV x :: fmtSprintVList xs
/-- The `%v` texts of the values of a map, each with its key. -/
def fmtSprintVFields : List (String × GoAny) → List (String × String)
  | [] => []
  | (k, v) :: kvs => (k, fmtSprintV v) :: fmtSprintVFields kvs
end

/-- A JSON text, by its syntax tree.  A number is its literal `lit` together
with `value`, the `float64` that `strconv.ParseFloat(lit, 64)` returns for it,
`none` when the literal is out of the range of `float64`. -/
inductive Json where
  | null
  | bool (b : Bool)
  | number (lit : String) (value : Option Float64)
  | string (s : String)
  | array (xs : List Json)
  | object (members : List (String × Json))

mutual
/-- The Go value `encoding/json` stores in an `any` for a JSON text.  A number
becomes a `float64`; for a number out of range the decoder records an error
(see `Json.rangeError`) and stores nil. -/
def Json.toGo : Json → GoAny
  | .null => GoAny.nil
  | .bool b => GoAny.bool b
  | .number _ (some f) => GoAny.float f
  | .number _ none => GoAny.nil
  | .string s => GoAny.str s
  | .array xs => GoAny.arr (Json.toGoList xs)
  | .object ms => GoAny.obj (Json.toGoMembers ms)
/-- The Go values for the elements of a JSON array. -/
def Json.toGoList : List Json → List GoAny
  | [] => []
  | x :: xs => Json.toGo x :: Json.toGoList xs
/-- The map for the members of a JSON object; of two members with the same
key the later one is kept. -/
def Json.toGoMembers : List (String × Json) → List (String × GoAny)
  | [] => []
  | (k, v) :: ms =>
    if (Json.toGoMembers ms).any (fun p => p.1 = k) then Json.toGoMembers ms
    else (k, Json.toGo v) :: Json.toGoMembers ms
end

mutual
/-- The literal of the first number, in the order of the text, that is out of
the range of `float64`: the decoder goes on after such a number and
`json.Unmarshal` returns the error of the first one. -/
def Json.rangeError : Json → Option String
  | .null => none
  | .bool _ => none
  | .number _ (some _) => none
  | .number lit none => some lit
  | .string _ => none
  | .array xs => Json.rangeErrorList xs
  | .object ms => Json.rangeErrorMembers ms
/-- The first out-of-range number among the elements of a JSON array. -/
def Json.rangeErrorList : List Json → Option String
  | [] => none
  | x :: xs =>
    match Json.rangeError x with
    | some lit => some lit
    | none => Json.rangeErrorList xs
/-- The first out-of-range number among the members of a JSON object. -/
def Json.rangeErrorMembers : List (String × Json) → Option String
  | [] => none
  | (_, v) :: ms =>
    match Json.rangeError v with
    | some lit => some lit
    | none => Json.rangeErrorMembers ms
end

/-- A `json.RawMessage` as `encoding/json` reads it: `empty` is a nil or
zero-length slice; `invalid msg` is a non-empty slice that the scanner of
`encoding/json` rejects, `msg` being the text of the syntax error that
`json.Unmarshal` reports for it; `text v` is a non-empty slice that the
scanner accepts as the JSON text `v`. -/
inductive RawMessage where
  | empty
  | invalid (msg : String)
  | text (v : Json)

/-- The Go test `len(raw) > 0`. -/
def RawMessage.nonEmpty : RawMessage → Bool
  | .empty => false
  | .invalid _ => true
  | .text _ => true

/-- The call `json.Unmarshal(raw, &args)` with `args` a nil `map[string]any`:
the returned error and `args` afterwards (`none` is the nil map).  A JSON
object fills the map, and the call returns the error of the first number in it
that is out of the range of `float64`, if there is one; the JSON value `null`
leaves the map nil without an error; every other JSON value is a type error;
malformed text is a syntax error. -/
def jsonUnmarshalMap : RawMessage → Option GoError × Option (List (String × GoAny))
  | .empty => (some (GoError.errorsNew "unexpected end of JSON input"), none)
  | .invalid msg => (some (GoError.errorsNew msg), none)
  | .text (.object ms) =>
    match Json.rangeErrorMembers ms with
    | some lit =>
      (some (GoError.errorsNew
        ("json: cannot unmarshal number " ++ lit ++ " into Go value of type float64")),
        some (Json.toGoMembers ms))
    | none => (none, some (Json.toGoMembers ms))
  | .text .null => (none, none)
  | .text (.array _) =>
    (some (GoError.errorsNew
      "json: cannot unmarshal array into Go value of type map[string]interface \x7b\x7d"), none)
  | .text (.string _) =>
    (some (GoError.errorsNew
      "json: cannot unmarshal string into Go value of type map[string]interface \x7b\x7d"), none)
  | .text (.number _ _) =>
    (some (GoError.errorsNew
      "json: cannot unmarshal number into Go value of type map[string]interface \x7b\x7d"), none)
  | .text (.bool _) =>
    (some (GoError.errorsNew
      "json: cannot unmarshal bool into Go value of type map[string]interface \x7b\x7d"), none)

/-- The conversion of a `map[string]any` to `any`. -/
def mapToAny : Option (List (String × GoAny)) → GoAny
  | none => GoAny.nilMap
  | some kvs => GoAny.obj kvs

/-! ## package mcpadapter -/

/-- The `json.RawMessage` that `registerTool` stores in `mcp.Tool.InputSchema`:
`text` is the bytes `json.Marshal` wrote for the schema map, `source` is that
map.  The SDK reads the bytes back as a JSON object; the member `type` it then
finds is the string `object` exactly when the member `type` of `source` is. -/
structure RawSchema where
  text : String
  source : List (String × GoAny)

/-- The fields of `mcp.Tool` that the adapter sets. -/
structure McpTool where
  Name : String
  Title : String
  Description : String
  InputSchema : RawSchema

/-- The value stored under `key` in a map, if any. -/
def mapLookup (key : String) : List (String × GoAny) → Option GoAny
  | [] => none
  | (k, v) :: kvs => if k = key then some v else mapLookup key kvs

/-- Whether the member `type` of a schema map is the string `object`. -/
def schemaTypeIsObject (schema : List (String × GoAny)) : Bool :=
  match mapLookup "type" schema with
  | some (GoAny.str s) => decide (s = "object")
  | _ => false

/-- The values of the interface `mcp.Content` that the adapter builds. -/
inductive Content where
  | TextContent (Text : String)

/-- The struct `mcp.CallToolResult`. -/
structure CallToolResult where
  Content : List Content
  StructuredContent : GoAny
  IsError : Bool

/-- A non-nil `*mcp.CallToolRequest` with non-nil `Params`; `Arguments` is
`req.Params.Arguments`. -/
structure CallToolRequest where
  Arguments : RawMessage

/-- The closure returned by `makeHandler`, by the tool name it captured. -/
structure ToolHandler where
  toolName : String

/-- The struct `mcp.Implementation`. -/
structure Implementation where
  Name : String
  Version : String

/-- The state of an `mcp.Server` as far as the adapter acts on it: the
implementation it was created with and the calls of `AddTool` it accepted, in
order. -/
structure Server where
  impl : Implementation
  tools : List (McpTool × ToolHandler)

/-- The function `mcp.NewServer`. -/
def NewServer (impl : Implementation) : Server :=
  { impl := impl, tools := [] }

/-- The method `Server.AddTool` of the SDK, which is not code of the
repository: it panics (`none`) when the input schema of the tool does not have
the type `object`, and otherwise the call is recorded. -/
def Server.AddTool (s : Server) (t : McpTool) (h : ToolHandler) : Option Server :=
  if schemaTypeIsObject t.InputSchema.source then
    some { s with tools := s.tools ++ [(t, h)] }
  else
    none

/-- The struct `mcpadapter.Adapter`; nil pointers are `none`.  `idFn` receives
the reading of `time.Now().UnixNano()`. -/
structure Adapter where
  server : Option Server
  registry : Option Registry
  executor : Option Executor
  idFn : Int → String

/-- The function `mcpadapter.New`. -/
def New (implName implVersion : String) (reg : Option Registry) (exec : Option Executor) :
    Option Adapter × Option GoError :=
  if reg.isNone ∨ exec.isNone then
    (none, some GoError.ErrNilDeps)
  else
    let srv := NewServer { Name := implName, Version := implVersion }
    (some { server := some srv, registry := reg, executor := exec,
            idFn := fun nano => "inv-" ++ toString nano }, none)

/-- The method `Adapter.Server`. -/
def Adapter.Server (a : Adapter) : Option Server :=
  a.server

/-- The function `stringify`. -/
def stringify (v : GoAny) : String :=
  match v with
  | .nil => ""
  | .str s => s
  | v =>
    match jsonMarshal v with
    | .error _ => fmtSprintV v
    | .ok b => b

/-- The clock readings one call of a tool handler takes: inside `idFn`, for
`StartTime`, and inside `Executor.Execute`. -/
structure HandlerClock where
  idNano : Int
  startTime : Int
  exec : Clock

/-- What one call of a tool handler did: the returned `(*CallToolResult, error)`
pair, the call of `Executor.Execute` it made (if any) with its arguments, and
the calls the executor made. -/
structure HandlerOutcome where
  result : Option CallToolResult
  err : Option GoError
  delegated : Option (Context × Invocation)
  trace : List Event

/-- The first step of the handler ("Decode raw arguments"): the error of
`json.Unmarshal`, if any, and the value of `args` converted to `any`. -/
def decodeArguments (raw : RawMessage) : Option GoError × GoAny :=
  if raw.nonEmpty then
    let r := jsonUnmarshalMap raw
    (r.1, mapToAny r.2)
  else
    (none, GoAny.obj [])

/-- The `execution.Invocation` the handler builds for the decoded arguments. -/
def Adapter.newInvocation (a : Adapter) (toolName : String) (clk : HandlerClock)
    (args : GoAny) : Invocation :=
  { ID := a.idFn clk.idNano, ToolName := toolName, Input := args,
    Caller := { ID := "", Type_ := "", Roles := [], TenantID := "" },
    Metadata := [], StartTime := clk.startTime }

/-- One call of the handler returned by `Adapter.makeHandler toolName`; `none`
is a panic. -/
def Adapter.makeHandler (a : Adapter) (toolName : String) (clk : HandlerClock)
    (ctx : Context) (req : CallToolRequest) : Option HandlerOutcome :=
  match decodeArguments req.Arguments with
  | (some err, _) =>
    some { result := some { IsError := true, StructuredContent := GoAny.nil,
                            Content := [Content.TextContent
                              ("invalid tool arguments: " ++ err.Error)] },
           err := none, delegated := none, trace := [] }
  | (none, args) =>
    let inv := a.newInvocation toolName clk args
    match Executor.Execute a.executor clk.exec ctx inv with
    | none => none
    | some (res, tr) =>
      match res.Error with
      | some e =>
        some { result := some { IsError := true, StructuredContent := GoAny.nil,
                                Content := [Content.TextContent e.Error] },
               err := none, delegated := some (ctx, inv), trace := tr }
      | none =>
        let outText := stringify res.Output
        some { result := some { IsError := false, StructuredContent := res.Output,
                                Content := [Content.TextContent outText] },
               err := none, delegated := some (ctx, inv), trace := tr }

/-- The part of `Adapter.registerTool` before the call of `AddTool`: the name
check, the default schema, the serialization of the schema and the `mcp.Tool`
built from them.  `fmtQ` is the verb `%q` of `fmt` on a string. -/
def Adapter.mcpToolFor (fmtQ : String → String) (t : Tool) : Except GoError McpTool :=
  let name := t.Name
  if name = "" then
    .error (GoError.errorsNew "adapter: tool name is empty")
  else
    let spec := t.Spec
    let schema : List (String × GoAny) :=
      match spec.InputSchema with
      | none => [("type", GoAny.str "object")]
      | some declared => declared
    match jsonMarshal (GoAny.obj schema) with
    | .error err =>
      .error (GoError.wrap
        ("adapter: marshal input schema for " ++ fmtQ name ++ ": " ++ err.Error) err)
    | .ok schemaBytes =>
      .ok { Name := name, Title := spec.Title, Description := spec.Description,
            InputSchema := { text := schemaBytes, source := schema } }

/-- The method `Adapter.registerTool` on a non-nil tool: the returned error and
the adapter afterwards; `none` is a panic, of `AddTool` on a nil server or of
`AddTool` on a schema that does not have the type `object`. -/
def Adapter.registerTool (a : Adapter) (fmtQ : String → String) (t : Tool) :
    Option (Option GoError × Adapter) :=
  match Adapter.mcpToolFor fmtQ t with
  | .error err => some (some err, a)
  | .ok mcpTool =>
    match a.server with
    | none => none
    | some srv =>
      match srv.AddTool mcpTool { toolName := t.Name } with
      | none => none
      | some srv1 => some (none, { a with server := some srv1 })

/-- The loop of `Adapter.RegisterAllTools` over the tools in the order given. -/
def Adapter.registerEach (a : Adapter) (fmtQ : String → String) :
    List Tool → Option (Option GoError × Adapter)
  | [] => some (none, a)
  | t :: ts =>
    match a.registerTool fmtQ t with
    | none => none
    | some (some err, a1) => some (some err, a1)
    | some (none, a1) => Adapter.registerEach a1 fmtQ ts

/-- The method `Adapter.RegisterAllTools` on a possibly nil receiver: the
returned error and the adapter afterwards; `none` is a panic. -/
def Adapter.RegisterAllTools (a : Option Adapter) (fmtQ : String → String) :
    Option (Option GoError × Option Adapter) :=
  match a with
  | none => some (some GoError.ErrNilDeps, none)
  | some ad =>
    match ad.server, ad.registry with
    | none, _ => some (some GoError.ErrNilDeps, some ad)
    | some _, none => some (some GoError.ErrNilDeps, some ad)
    | some _, some reg =>
      (ad.registerEach fmtQ reg.ListTools.1).map fun p => (p.1, some p.2)

/-- How the registration of one tool ends on an adapter that has a server. -/
inductive Registration where
  | added (mcpTool : McpTool)
  | failed (err : GoError)
  | panicked

/-- The end of the registration of the tool `t`. -/
def Adapter.registration (fmtQ : String → String) (t : Tool) : Registration :=
  match Adapter.mcpToolFor fmtQ t with
  | .error err => Registration.failed err
  | .ok mcpTool =>
    if schemaTypeIsObject mcpTool.InputSchema.source then Registration.added mcpTool
    else Registration.panicked

/-- The calls of `AddTool` that the loop of `RegisterAllTools` has made and the
server has accepted when it stops on the tools `ts`: one per tool, up to the
first tool whose registration fails or panics. -/
def Adapter.addToolCalls (fmtQ : String → String) : List Tool → List (McpTool × ToolHandler)
  | [] => []
  | t :: ts =>
    match Adapter.registration fmtQ t with
    | .added mcpTool => (mcpTool, { toolName := t.Name }) :: Adapter.addToolCalls fmtQ ts
    | .failed _ => []
    | .panicked => []

/-- How the loop of `RegisterAllTools` ends on the tools `ts`: the returned
error, or `none` for a panic. -/
def Adapter.passResult (fmtQ : String → String) : List Tool → Option (Option GoError)
  | [] => some none
  | t :: ts =>
    match Adapter.registration fmtQ t with
    | .added _ => Adapter.passResult fmtQ ts
    | .failed err => some (some err)
    | .panicked => none

/-! ## Sample tools -/

/-- A tool that returns its input. -/
def echoTool : Tool :=
  { Name := "echo"
    Spec := { Title := "Echo", Description := "returns its input", InputSchema := none }
    Execute := fun _ input => (input, none) }

/-- A tool that always fails with `(nil, error)`. -/
def failTool : Tool :=
  { Name := "fail"
    Spec := { Title := "Fail", Description := "always fails", InputSchema := none }
    Execute := fun _ _ => (GoAny.nil, some (GoError.errorsNew "boom")) }

/-- A tool that returns `(nil, nil)`. -/
def silentTool : Tool :=
  { Name := "silent"
    Spec := { Title := "Silent", Description := "returns nothing", InputSchema := none }
    Execute := fun _ _ => (GoAny.nil, none) }

/-- A second tool named `echo`, different from `echoTool`. -/
def echoTwin : Tool :=
  { Name := "echo"
    Spec := { Title := "Twin", Description := "same name, other tool", InputSchema := none }
    Execute := fun _ _ => (GoAny.str "twin", none) }

/-- A tool value whose name is the empty string. -/
def namelessTool : Tool :=
  { Name := ""
    Spec := { Title := "", Description := "", InputSchema := none }
    Execute := fun _ input => (input, none) }

/-- The registry after `NewRegistry()` and `Add(echoTool)`. -/
def echoRegistry : Registry :=
  (NewRegistry.Add (some echoTool)).2

/-- An invocation of the tool named `name` with input `input`. -/
def mkInvocation (name : String) (input : GoAny) : Invocation :=
  { ID := "inv-1", ToolName := name, Input := input,
    Caller := { ID := "", Type_ := "", Roles := [], TenantID := "" },
    Metadata := [], StartTime := 0 }

/-- The registry after `NewRegistry()` and `Add(silentTool)`. -/
def silentRegistry : Registry :=
  (NewRegistry.Add (some silentTool)).2

/-- The registry after `NewRegistry()`, `Add(echoTool)` and `Add(failTool)`. -/
def echoFailRegistry : Registry :=
  (echoRegistry.Add (some failTool)).2

/-- A clock that advanced by five nanoseconds during the call. -/
def sampleClock : Clock :=
  { start := 100, stop := 105 }

/-- A context token for the examples. -/
def sampleContext : Context :=
  { id := 7 }

/-- A tool that returns the object with the one field `a` set to 1. -/
def abTool : Tool :=
  { Name := "ab"
    Spec := { Title := "AB", Description := "returns a fixed object", InputSchema := none }
    Execute := fun _ _ => (GoAny.obj [("a", GoAny.num 1)], none) }

/-- A tool that declares an input schema with the required field `msg`. -/
def schemaTool : Tool :=
  { Name := "schema"
    Spec := { Title := "Schema", Description := "declares a schema",
              InputSchema := some [("type", GoAny.str "object"),
                                   ("required", GoAny.arr [GoAny.str "msg"])] }
    Execute := fun _ input => (input, none) }

/-- A tool whose declared schema holds a value that JSON cannot express. -/
def badSchemaTool : Tool :=
  { Name := "bad"
    Spec := { Title := "Bad", Description := "schema cannot be serialized",
              InputSchema := some [("type", GoAny.fn 1)] }
    Execute := fun _ input => (input, none) }

/-- A tool that declares the empty schema, which has no member `type`. -/
def emptySchemaTool : Tool :=
  { Name := "empty"
    Spec := { Title := "Empty", Description := "declares the empty schema",
              InputSchema := some [] }
    Execute := fun _ input => (input, none) }

/-- A stand-in for the verb `%q` in the examples: the text between double
quotes, which is what `%q` prints for the tool names used here. -/
def sampleFmtQ (s : String) : String :=
  "\"" ++ s ++ "\""

/-- The payload with the one member `n` set to a number out of the range of
`float64`. -/
def hugeNumberPayload : RawMessage :=
  RawMessage.text (Json.object [("n", Json.number "1e999" none)])

/-- The registry after `NewRegistry()`, `Add(echoTool)` and `Add(emptySchemaTool)`. -/
def echoEmptyRegistry : Registry :=
  (echoRegistry.Add (some emptySchemaTool)).2

/-- The adapter `New` builds over the registry `reg` and an executor on it. -/
def adapterFor (reg : Registry) : Adapter :=
  { server := some (NewServer { Name := "guardrail", Version := "v0.1.0" })
    registry := some reg
    executor := some (NewExecutor (some reg))
    idFn := fun nano => "inv-" ++ toString nano }

/-- The clock readings of one sample call of a handler. -/
def sampleHandlerClock : HandlerClock :=
  { idNano := 42, startTime := 99, exec := sampleClock }

/-- The registry after `NewRegistry()`, `Add(echoTool)` and `Add(abTool)`. -/
def echoAbRegistry : Registry :=
  (echoRegistry.Add (some abTool)).2

/-- The registry after `NewRegistry()`, `Add(echoTool)` and `Add(badSchemaTool)`. -/
def echoBadRegistry : Registry :=
  (echoRegistry.Add (some badSchemaTool)).2

/-- The payload with the one member `msg` set to the string `hi`. -/
def msgHiPayload : RawMessage :=
  RawMessage.text (Json.object [("msg", Json.string "hi")])

/-! ## Lemmas on the registry -/

/-- A reachable registry never has the empty string as a key. -/
theorem Registry.Reachable.empty_not_key {r : Registry} (h : r.Reachable) :
    r.tools.lookup "" = none := by
  induction h with
  | new => rfl
  | add r t _ ih =>
    cases t with
    | none => simpa [Registry.Add] using ih
    | some t =>
      simp only [Registry.Add]
      split_ifs with h1 h2
      · exact ih
      · exact ih
      · have : ("" : String) ≠ t.Name := fun h => h1 h.symm
        simpa [AList.lookup_insert_ne this] using ih
  | get r name _ ih =>
    unfold Registry.Get
    split_ifs
    · exact ih
    · cases r.tools.lookup name <;> exact ih
  | listNames r _ ih => exact ih
  | listTools r _ ih => exact ih

theorem Registry.listNames_eq_keys (r : Registry) : r.ListNames.1 = r.tools.keys := rfl

theorem Registry.listNames_nodup (r : Registry) : r.ListNames.1.Nodup :=
  r.tools.keys_nodup

theorem Registry.mem_listNames_iff (r : Registry) (n : String) :
    n ∈ r.ListNames.1 ↔ (r.tools.lookup n).isSome := by
  rw [Registry.listNames_eq_keys, AList.lookup_isSome, AList.mem_keys]

theorem Registry.get_eq_some_iff (r : Registry) (n : String) (t : Tool) :
    (r.Get n).1 = (some t, none) ↔ n ≠ "" ∧ r.tools.lookup n = some t := by
  unfold Registry.Get
  by_cases hn : n = ""
  · simp [hn]
  · cases hl : r.tools.lookup n <;> simp [hn]

theorem Registry.mem_listTools_iff (r : Registry) (t : Tool) :
    t ∈ r.ListTools.1 ↔ ∃ n : String, r.tools.lookup n = some t := by
  simp only [Registry.ListTools, List.mem_map]
  constructor
  · rintro ⟨⟨n, u⟩, hmem, rfl⟩
    exact ⟨n, AList.mem_lookup_iff.mpr hmem⟩
  · rintro ⟨n, hn⟩
    exact ⟨⟨n, t⟩, AList.mem_lookup_iff.mp hn, rfl⟩

/-! ## The registry contract -/

/-- C1: adding a tool whose name is already a key of a reachable registry
returns `ErrToolExists` and leaves the registry as it was: `Get` of the name
still returns the tool registered first, and `ListNames` holds the name exactly
once. -/
theorem Registry.add_duplicate_rejected (r : Registry) (hr : r.Reachable)
    (t t0 : Tool) (h : r.tools.lookup t.Name = some t0) :
    r.Add (some t) = (some GoError.ErrToolExists, r) ∧
    ((r.Add (some t)).2.Get t.Name).1 = (some t0, none) ∧
    (r.Add (some t)).2.ListNames.1.count t.Name = 1 := by
  have hne : t.Name ≠ "" := by
    intro he
    rw [he, hr.empty_not_key] at h
    exact Option.noConfusion h
  have hadd : r.Add (some t) = (some GoError.ErrToolExists, r) := by
    simp [Registry.Add, hne, h]
  refine ⟨hadd, ?_, ?_⟩
  · simp [hadd, Registry.Get, hne, h]
  · rw [hadd]
    apply List.count_eq_one_of_mem r.listNames_nodup
    rw [Registry.mem_listNames_iff, h]
    rfl

/-- C1 at a concrete input: a second tool named `echo` is rejected by the
registry that already holds `echoTool`. -/
theorem Registry.add_duplicate_rejected_witness :
    echoRegistry.Reachable ∧
    echoRegistry.tools.lookup echoTwin.Name = some echoTool ∧
    echoRegistry.Add (some echoTwin) = (some GoError.ErrToolExists, echoRegistry) ∧
    ((echoRegistry.Add (some echoTwin)).2.Get echoTwin.Name).1 = (some echoTool, none) ∧
    (echoRegistry.Add (some echoTwin)).2.ListNames.1.count echoTwin.Name = 1 :=
  ⟨Registry.Reachable.add _ _ Registry.Reachable.new, rfl,
    Registry.add_duplicate_rejected echoRegistry
      (Registry.Reachable.add _ _ Registry.Reachable.new) echoTwin echoTool rfl⟩

/-- C2: adding a non-nil tool with a non-empty name that is not yet a key
succeeds, afterwards `Get` of that name returns the tool, and `Get` of every
other name returns what it returned before; in particular two tools with
distinct non-empty names can both be added to a new registry. -/
theorem Registry.add_fresh_succeeds :
    (∀ (r : Registry) (t : Tool), t.Name ≠ "" → r.tools.lookup t.Name = none →
      (r.Add (some t)).1 = none ∧
      ((r.Add (some t)).2.Get t.Name).1 = (some t, none) ∧
      ∀ m : String, m ≠ t.Name → ((r.Add (some t)).2.Get m).1 = (r.Get m).1) ∧
    (∀ t1 t2 : Tool, t1.Name ≠ "" → t2.Name ≠ "" → t1.Name ≠ t2.Name →
      (NewRegistry.Add (some t1)).1 = none ∧
      ((NewRegistry.Add (some t1)).2.Add (some t2)).1 = none) := by
  have key : ∀ (r : Registry) (t : Tool), t.Name ≠ "" → r.tools.lookup t.Name = none →
      r.Add (some t) = (none, { tools := r.tools.insert t.Name t }) := by
    intro r t hne hfresh
    simp [Registry.Add, hne, hfresh]
  refine ⟨?_, ?_⟩
  · intro r t hne hfresh
    rw [key r t hne hfresh]
    refine ⟨rfl, ?_, ?_⟩
    · simp [Registry.Get, hne, AList.lookup_insert]
    · intro m hm
      unfold Registry.Get
      rw [AList.lookup_insert_ne hm]
      split_ifs
      · rfl
      · cases r.tools.lookup m <;> rfl
  · intro t1 t2 h1 h2 h12
    have e1 := key NewRegistry t1 h1 rfl
    refine ⟨by rw [e1], ?_⟩
    have hfresh : (NewRegistry.Add (some t1)).2.tools.lookup t2.Name = none := by
      rw [e1]
      show (AList.insert t1.Name t1 NewRegistry.tools).lookup t2.Name = none
      rw [AList.lookup_insert_ne (Ne.symm h12)]
      rfl
    rw [key _ t2 h2 hfresh]

/-- C2 at a concrete input: `echoTool` is added to a new registry and found
again, and `failTool` can be added after it. -/
theorem Registry.add_fresh_succeeds_witness :
    ((NewRegistry.Add (some echoTool)).1 = none ∧
      ((NewRegistry.Add (some echoTool)).2.Get echoTool.Name).1 = (some echoTool, none) ∧
      ∀ m : String, m ≠ echoTool.Name →
        ((NewRegistry.Add (some echoTool)).2.Get m).1 = (NewRegistry.Get m).1) ∧
    ((NewRegistry.Add (some echoTool)).1 = none ∧
      ((NewRegistry.Add (some echoTool)).2.Add (some failTool)).1 = none) :=
  ⟨Registry.add_fresh_succeeds.1 NewRegistry echoTool (by decide) rfl,
    Registry.add_fresh_succeeds.2 echoTool failTool (by decide) (by decide) (by decide)⟩

/-- C3: `Add` of a nil tool fails with the error "tool is nil", `Add` of a tool
whose name is empty fails with the error "tool name is empty" (the two
InvalidTool errors), and in both cases the registry, hence `ListNames` and
every `Get`, is unchanged. -/
theorem Registry.add_invalid_rejected (r : Registry) :
    r.Add none = (some (GoError.errorsNew "tool is nil"), r) ∧
    (∀ t : Tool, t.Name = "" →
      r.Add (some t) = (some (GoError.errorsNew "tool name is empty"), r)) ∧
    (∀ t : Option Tool, (t = none ∨ ∃ u : Tool, t = some u ∧ u.Name = "") →
      (r.Add t).2.ListNames.1 = r.ListNames.1 ∧
      ∀ n : String, ((r.Add t).2.Get n).1 = (r.Get n).1) := by
  have hempty : ∀ t : Tool, t.Name = "" →
      r.Add (some t) = (some (GoError.errorsNew "tool name is empty"), r) := by
    intro t ht
    simp [Registry.Add, ht]
  refine ⟨rfl, hempty, ?_⟩
  rintro t (rfl | ⟨u, rfl, hu⟩)
  · exact ⟨rfl, fun _ => rfl⟩
  · rw [hempty u hu]
    exact ⟨rfl, fun _ => rfl⟩

/-- C3 at a concrete input: a nameless tool is rejected by the registry that
holds `echoTool`, which stays as it was. -/
theorem Registry.add_invalid_rejected_witness :
    echoRegistry.Add (some namelessTool)
      = (some (GoError.errorsNew "tool name is empty"), echoRegistry) ∧
    ((echoRegistry.Add (some namelessTool)).2.ListNames.1 = echoRegistry.ListNames.1 ∧
      ∀ n : String, ((echoRegistry.Add (some namelessTool)).2.Get n).1
        = (echoRegistry.Get n).1) :=
  ⟨(Registry.add_invalid_rejected echoRegistry).2.1 namelessTool (by decide),
    (Registry.add_invalid_rejected echoRegistry).2.2 (some namelessTool)
      (Or.inr ⟨namelessTool, rfl, by decide⟩)⟩

/-- C4: `Get` of the empty name fails with the error "tool name is empty"
(InvalidName), `Get` of a non-empty name that is not a key fails with
`ErrToolNotFound`, `Get` of a non-empty key returns the tool stored under
it with a nil error, and `Get` never changes the registry. -/
theorem Registry.get_contract (r : Registry) (n : String) :
    (n = "" → (r.Get n).1 = (none, some (GoError.errorsNew "tool name is empty"))) ∧
    (n ≠ "" → r.tools.lookup n = none →
      (r.Get n).1 = (none, some GoError.ErrToolNotFound)) ∧
    (∀ t : Tool, n ≠ "" → r.tools.lookup n = some t → (r.Get n).1 = (some t, none)) ∧
    (r.Get n).2 = r := by
  refine ⟨?_, ?_, ?_, ?_⟩
  · intro h
    simp [Registry.Get, h]
  · intro h hl
    simp [Registry.Get, h, hl]
  · intro t h hl
    simp [Registry.Get, h, hl]
  · unfold Registry.Get
    split_ifs
    · rfl
    · cases r.tools.lookup n <;> rfl

/-- C4 at concrete inputs: on the registry holding `echoTool`, `Get` of the
empty name, of the unknown name `ghost` and of `echo`. -/
theorem Registry.get_contract_witness :
    (echoRegistry.Get "").1 = (none, some (GoError.errorsNew "tool name is empty")) ∧
    (echoRegistry.Get "ghost").1 = (none, some GoError.ErrToolNotFound) ∧
    (echoRegistry.Get "echo").1 = (some echoTool, none) :=
  ⟨(Registry.get_contract echoRegistry "").1 rfl,
    (Registry.get_contract echoRegistry "ghost").2.1 (by decide) rfl,
    (Registry.get_contract echoRegistry "echo").2.2.1 echoTool (by decide) rfl⟩

/-- C5, as stated, fails at the empty name: on a new registry the empty string
is not registered, yet `Get` answers with the error "tool name is empty" and
not with `ErrToolNotFound`. -/
theorem Registry.get_empty_name_is_not_notFound :
    NewRegistry.Reachable ∧
    NewRegistry.tools.lookup "" = none ∧
    (NewRegistry.Get "").1 = (none, some (GoError.errorsNew "tool name is empty")) ∧
    (NewRegistry.Get "").1.2 ≠ some GoError.ErrToolNotFound :=
  ⟨Registry.Reachable.new, rfl, rfl, by decide⟩

/-- C5, amended: in a registry built from `NewRegistry` the empty string is
never registered, and for every unregistered name `Get` returns no tool; the
error is `ErrToolNotFound` when the name is non-empty and the error
"tool name is empty" when the name is the empty string. -/
theorem Registry.get_unregistered (r : Registry) (hr : r.Reachable) (n : String)
    (h : r.tools.lookup n = none) :
    r.tools.lookup "" = none ∧
    (r.Get n).1.1 = none ∧
    (n ≠ "" → (r.Get n).1.2 = some GoError.ErrToolNotFound) ∧
    (n = "" → (r.Get n).1.2 = some (GoError.errorsNew "tool name is empty")) := by
  refine ⟨hr.empty_not_key, ?_, ?_, ?_⟩
  · unfold Registry.Get
    split_ifs
    · rfl
    · rw [h]
  · intro hn
    simp [Registry.Get, hn, h]
  · intro hn
    simp [Registry.Get, hn]

/-- C5 amended, at a concrete input: the name `ghost` in the registry that holds
`echoTool`. -/
theorem Registry.get_unregistered_witness :
    echoRegistry.tools.lookup "ghost" = none ∧
    (echoRegistry.Get "ghost").1.1 = none ∧
    (echoRegistry.Get "ghost").1.2 = some GoError.ErrToolNotFound :=
  have h := Registry.get_unregistered echoRegistry
    (Registry.Reachable.add _ _ Registry.Reachable.new) "ghost" rfl
  ⟨rfl, h.2.1, h.2.2.1 (by decide)⟩

/-- C6: in a reachable registry `ListNames` holds exactly the names for which
`Get` succeeds, without duplicates; `ListTools` has the same length and holds
exactly the tools `Get` returns for those names; neither call changes the
registry. -/
theorem Registry.list_snapshot (r : Registry) (hr : r.Reachable) :
    (∀ n : String, n ∈ r.ListNames.1 ↔ ∃ t : Tool, (r.Get n).1 = (some t, none)) ∧
    r.ListNames.1.Nodup ∧
    r.ListTools.1.length = r.ListNames.1.length ∧
    (∀ t : Tool, t ∈ r.ListTools.1 ↔
      ∃ n : String, n ∈ r.ListNames.1 ∧ (r.Get n).1 = (some t, none)) ∧
    r.ListNames.2 = r ∧ r.ListTools.2 = r := by
  have hkey : ∀ (n : String) (t : Tool), r.tools.lookup n = some t → n ≠ "" := by
    intro n t hl hn
    rw [hn, hr.empty_not_key] at hl
    exact Option.noConfusion hl
  refine ⟨?_, r.listNames_nodup, ?_, ?_, rfl, rfl⟩
  · intro n
    rw [Registry.mem_listNames_iff, Option.isSome_iff_exists]
    constructor
    · rintro ⟨t, ht⟩
      exact ⟨t, (r.get_eq_some_iff n t).mpr ⟨hkey n t ht, ht⟩⟩
    · rintro ⟨t, ht⟩
      exact ⟨t, ((r.get_eq_some_iff n t).mp ht).2⟩
  · simp [Registry.ListTools, Registry.ListNames]
  · intro t
    rw [Registry.mem_listTools_iff]
    constructor
    · rintro ⟨n, hn⟩
      refine ⟨n, ?_, (r.get_eq_some_iff n t).mpr ⟨hkey n t hn, hn⟩⟩
      rw [Registry.mem_listNames_iff, hn]
      rfl
    · rintro ⟨n, _, hn⟩
      exact ⟨n, ((r.get_eq_some_iff n t).mp hn).2⟩

/-- C6 at a concrete input: the listings of the registry that holds `echoTool`
and `failTool`. -/
theorem Registry.list_snapshot_witness :
    (echoRegistry.Add (some failTool)).2.ListNames.1.Nodup ∧
    (echoRegistry.Add (some failTool)).2.ListTools.1.length
      = (echoRegistry.Add (some failTool)).2.ListNames.1.length ∧
    (failTool ∈ (echoRegistry.Add (some failTool)).2.ListTools.1 ↔
      ∃ n : String, n ∈ (echoRegistry.Add (some failTool)).2.ListNames.1 ∧
        ((echoRegistry.Add (some failTool)).2.Get n).1 = (some failTool, none)) :=
  have h := Registry.list_snapshot (echoRegistry.Add (some failTool)).2
    (Registry.Reachable.add _ _ (Registry.Reachable.add _ _ Registry.Reachable.new))
  ⟨h.2.1, h.2.2.1, h.2.2.2.1 failTool⟩

/-! ## The executor contract -/

theorem Executor.execute_of_registry (ex : Executor) (reg : Registry)
    (hreg : ex.registry = some reg) (clk : Clock) (ctx : Context) (inv : Invocation)
    (hne : inv.ToolName ≠ "") :
    Executor.Execute (some ex) clk ctx inv =
      match reg.tools.lookup inv.ToolName with
      | none =>
        some ({ Output := GoAny.nil, Error := some GoError.ErrToolNotFound,
                Duration := clk.since }, [Event.registryGet inv.ToolName])
      | some t =>
        some ({ Output := (t.Execute ctx inv.Input).1, Error := (t.Execute ctx inv.Input).2,
                Duration := clk.since },
              [Event.registryGet inv.ToolName, Event.toolExecute t ctx inv.Input]) := by
  unfold Executor.Execute
  simp only [hreg, hne, if_false, Registry.Get]
  cases reg.tools.lookup inv.ToolName <;> rfl

theorem Executor.execute_on_empty_name (ex : Executor) (reg : Registry)
    (hreg : ex.registry = some reg) (clk : Clock) (ctx : Context) (inv : Invocation)
    (h : inv.ToolName = "") :
    Executor.Execute (some ex) clk ctx inv =
      some ({ Output := GoAny.nil,
              Error := some (GoError.errorsNew "invocation tool name is empty"),
              Duration := clk.since }, []) := by
  simp [Executor.Execute, hreg, h]

/-- C7: when the executor has a registry and the invocation's tool name
resolves to the tool `t`, `Execute` calls `t.Execute` exactly once, with the
caller's context and the invocation's input, and the `Result` carries exactly
the output and the error of that call; so a tool returning `(nil, err)` gives a
`Result` with that error and no output. -/
theorem Executor.execute_passes_through (ex : Executor) (reg : Registry)
    (hreg : ex.registry = some reg) (clk : Clock) (ctx : Context) (inv : Invocation)
    (t : Tool) (h : (reg.Get inv.ToolName).1 = (some t, none)) :
    ∃ (res : Result) (tr : List Event),
      Executor.Execute (some ex) clk ctx inv = some (res, tr) ∧
      tr = [Event.registryGet inv.ToolName, Event.toolExecute t ctx inv.Input] ∧
      tr.countP Event.isToolExecute = 1 ∧
      (res.Output, res.Error) = t.Execute ctx inv.Input ∧
      ∀ err : GoError, t.Execute ctx inv.Input = (GoAny.nil, some err) →
        res.Error = some err ∧ res.Output.isNil = true := by
  obtain ⟨hne, hl⟩ := (reg.get_eq_some_iff inv.ToolName t).mp h
  refine ⟨{ Output := (t.Execute ctx inv.Input).1, Error := (t.Execute ctx inv.Input).2,
            Duration := clk.since },
    [Event.registryGet inv.ToolName, Event.toolExecute t ctx inv.Input], ?_, rfl, rfl, rfl, ?_⟩
  · rw [Executor.execute_of_registry ex reg hreg clk ctx inv hne, hl]
  · intro err herr
    simp [herr, GoAny.isNil]

/-- C7 at a concrete input: `fail` is invoked on the registry that holds
`echoTool` and `failTool`; the tool's error reaches the `Result`. -/
theorem Executor.execute_passes_through_witness :
    ∃ (res : Result) (tr : List Event),
      Executor.Execute (some (NewExecutor (some echoFailRegistry))) sampleClock sampleContext
        (mkInvocation "fail" (GoAny.str "x")) = some (res, tr) ∧
      tr = [Event.registryGet "fail",
            Event.toolExecute failTool sampleContext (GoAny.str "x")] ∧
      tr.countP Event.isToolExecute = 1 ∧
      (res.Output, res.Error) = (GoAny.nil, some (GoError.errorsNew "boom")) ∧
      ∀ err : GoError,
        failTool.Execute sampleContext (GoAny.str "x") = (GoAny.nil, some err) →
        res.Error = some err ∧ res.Output.isNil = true :=
  Executor.execute_passes_through (NewExecutor (some echoFailRegistry)) echoFailRegistry rfl
    sampleClock sampleContext (mkInvocation "fail" (GoAny.str "x")) failTool rfl

/-- C8: when the executor has a registry and the invocation's tool name is
empty, `Execute` returns a `Result` with the error "invocation tool name is
empty" and no output, makes no call at all (neither `Registry.Get` nor any
tool's `Execute`), and returns the same whatever registry the executor holds. -/
theorem Executor.execute_empty_name (ex : Executor) (reg : Registry)
    (hreg : ex.registry = some reg) (clk : Clock) (ctx : Context) (inv : Invocation)
    (h : inv.ToolName = "") :
    Executor.Execute (some ex) clk ctx inv =
      some ({ Output := GoAny.nil,
              Error := some (GoError.errorsNew "invocation tool name is empty"),
              Duration := clk.since }, []) ∧
    ∀ (ex2 : Executor) (reg2 : Registry), ex2.registry = some reg2 →
      Executor.Execute (some ex2) clk ctx inv = Executor.Execute (some ex) clk ctx inv := by
  refine ⟨Executor.execute_on_empty_name ex reg hreg clk ctx inv h, ?_⟩
  intro ex2 reg2 h2
  rw [Executor.execute_on_empty_name ex reg hreg clk ctx inv h,
    Executor.execute_on_empty_name ex2 reg2 h2 clk ctx inv h]

/-- C8 at a concrete input: the empty tool name on the registry that holds
`echoTool`, compared with a new registry. -/
theorem Executor.execute_empty_name_witness :
    Executor.Execute (some (NewExecutor (some echoRegistry))) sampleClock sampleContext
        (mkInvocation "" GoAny.nil) =
      some ({ Output := GoAny.nil,
              Error := some (GoError.errorsNew "invocation tool name is empty"),
              Duration := sampleClock.since }, []) ∧
    Executor.Execute (some (NewExecutor (some NewRegistry))) sampleClock sampleContext
        (mkInvocation "" GoAny.nil) =
      Executor.Execute (some (NewExecutor (some echoRegistry))) sampleClock sampleContext
        (mkInvocation "" GoAny.nil) :=
  have h := Executor.execute_empty_name (NewExecutor (some echoRegistry)) echoRegistry rfl
    sampleClock sampleContext (mkInvocation "" GoAny.nil) rfl
  ⟨h.1, h.2 (NewExecutor (some NewRegistry)) NewRegistry rfl⟩

/-- C9: when the executor has a registry and the invocation's non-empty tool
name is not registered, `Execute` returns a `Result` whose error is
`ErrToolNotFound`, whose output is absent and whose duration is non-negative
when the clock did not go backwards; the only call made is `Registry.Get`, so
no tool is executed. -/
theorem Executor.execute_unregistered (ex : Executor) (reg : Registry)
    (hreg : ex.registry = some reg) (clk : Clock) (ctx : Context) (inv : Invocation)
    (hne : inv.ToolName ≠ "") (hun : reg.tools.lookup inv.ToolName = none) :
    ∃ (res : Result) (tr : List Event),
      Executor.Execute (some ex) clk ctx inv = some (res, tr) ∧
      res.Error = some GoError.ErrToolNotFound ∧
      res.Output.isNil = true ∧
      (clk.start ≤ clk.stop → 0 ≤ res.Duration) ∧
      tr = [Event.registryGet inv.ToolName] ∧
      tr.countP Event.isToolExecute = 0 := by
  refine ⟨{ Output := GoAny.nil, Error := some GoError.ErrToolNotFound,
            Duration := clk.since },
    [Event.registryGet inv.ToolName], ?_, rfl, rfl, ?_, rfl, rfl⟩
  · rw [Executor.execute_of_registry ex reg hreg clk ctx inv hne, hun]
  · intro hclk
    show 0 ≤ clk.stop - clk.start
    omega

/-- C9 at a concrete input: the name `ghost` on the registry that holds
`echoTool`. -/
theorem Executor.execute_unregistered_witness :
    ∃ (res : Result) (tr : List Event),
      Executor.Execute (some (NewExecutor (some echoRegistry))) sampleClock sampleContext
        (mkInvocation "ghost" GoAny.nil) = some (res, tr) ∧
      res.Error = some GoError.ErrToolNotFound ∧
      res.Output.isNil = true ∧
      (sampleClock.start ≤ sampleClock.stop → 0 ≤ res.Duration) ∧
      tr = [Event.registryGet "ghost"] ∧
      tr.countP Event.isToolExecute = 0 :=
  Executor.execute_unregistered (NewExecutor (some echoRegistry)) echoRegistry rfl
    sampleClock sampleContext (mkInvocation "ghost" GoAny.nil) (by decide) rfl

/-- C10, as stated, fails: the tool `silent` returns `(nil, nil)`, and the
`Result` of invoking it carries neither an error nor an output. -/
theorem Executor.execute_result_neither :
    (silentRegistry.Get "silent").1 = (some silentTool, none) ∧
    (Executor.Execute (some (NewExecutor (some silentRegistry))) sampleClock sampleContext
        (mkInvocation "silent" GoAny.nil)).map
      (fun p => (p.1.Error.isSome, p.1.Output.isNil, p.1.errorXorOutput))
      = some (false, true, false) :=
  ⟨rfl, rfl⟩

/-- C10, amended: `Execute` always returns a `Result`; on the paths that call
no tool it carries an error and no output; and error present XOR output present
holds for it whenever the tool that the invocation's name resolves to (if the
executor has a registry and the name resolves) returns a pair with exactly one
of error and output present. -/
theorem Executor.execute_xor_of_tool (e : Option Executor) (clk : Clock) (ctx : Context)
    (inv : Invocation)
    (hx : ∀ (ex : Executor) (reg : Registry) (t : Tool), e = some ex →
      ex.registry = some reg → (reg.Get inv.ToolName).1 = (some t, none) →
      xor (t.Execute ctx inv.Input).2.isSome (!(t.Execute ctx inv.Input).1.isNil) = true) :
    ∃ (res : Result) (tr : List Event),
      Executor.Execute e clk ctx inv = some (res, tr) ∧
      (tr.countP Event.isToolExecute = 0 →
        res.Error.isSome = true ∧ res.Output.isNil = true) ∧
      res.errorXorOutput = true := by
  cases e with
  | none => exact ⟨_, _, rfl, fun _ => ⟨rfl, rfl⟩, rfl⟩
  | some ex =>
    cases hreg : ex.registry with
    | none =>
      refine ⟨{ Output := GoAny.nil, Error := some GoError.ErrNilRegistry,
                Duration := clk.since }, [], ?_, fun _ => ⟨rfl, rfl⟩, rfl⟩
      simp [Executor.Execute, hreg]
    | some reg =>
      by_cases hne : inv.ToolName = ""
      · exact ⟨_, _, (Executor.execute_on_empty_name ex reg hreg clk ctx inv hne),
          fun _ => ⟨rfl, rfl⟩, rfl⟩
      · rw [Executor.execute_of_registry ex reg hreg clk ctx inv hne]
        cases hl : reg.tools.lookup inv.ToolName with
        | none => exact ⟨_, _, rfl, fun _ => ⟨rfl, rfl⟩, rfl⟩
        | some t =>
          refine ⟨_, _, rfl, fun h0 => ?_, ?_⟩
          · simp [List.countP_cons, Event.isToolExecute] at h0
          · exact hx ex reg t rfl hreg ((reg.get_eq_some_iff inv.ToolName t).mpr ⟨hne, hl⟩)

/-- C10 amended, at a concrete input: `echo` invoked with a string returns an
output and no error, so the `Result` satisfies the exclusive or. -/
theorem Executor.execute_xor_of_tool_witness :
    ∃ (res : Result) (tr : List Event),
      Executor.Execute (some (NewExecutor (some echoRegistry))) sampleClock sampleContext
        (mkInvocation "echo" (GoAny.str "hi")) = some (res, tr) ∧
      (tr.countP Event.isToolExecute = 0 →
        res.Error.isSome = true ∧ res.Output.isNil = true) ∧
      res.errorXorOutput = true :=
  Executor.execute_xor_of_tool (some (NewExecutor (some echoRegistry))) sampleClock
    sampleContext (mkInvocation "echo" (GoAny.str "hi"))
    (fun ex reg t he hr hg => by
      cases he
      cases hr
      have ht : some echoTool = some t := congrArg Prod.fst hg
      cases ht
      rfl)

/-! ## The adapter: the call path -/

theorem Executor.execute_total (e : Option Executor) (clk : Clock) (ctx : Context)
    (inv : Invocation) :
    ∃ (res : Result) (tr : List Event), Executor.Execute e clk ctx inv = some (res, tr) := by
  cases e with
  | none => exact ⟨_, _, rfl⟩
  | some ex =>
    cases hreg : ex.registry with
    | none =>
      refine ⟨{ Output := GoAny.nil, Error := some GoError.ErrNilRegistry,
                Duration := clk.since }, [], ?_⟩
      simp [Executor.Execute, hreg]
    | some reg =>
      by_cases hne : inv.ToolName = ""
      · exact ⟨_, _, Executor.execute_on_empty_name ex reg hreg clk ctx inv hne⟩
      · rw [Executor.execute_of_registry ex reg hreg clk ctx inv hne]
        cases reg.tools.lookup inv.ToolName with
        | none => exact ⟨_, _, rfl⟩
        | some t => exact ⟨_, _, rfl⟩

theorem Adapter.makeHandler_of_decode_error (a : Adapter) (toolName : String)
    (clk : HandlerClock) (ctx : Context) (req : CallToolRequest) (err : GoError) (v : GoAny)
    (h : decodeArguments req.Arguments = (some err, v)) :
    a.makeHandler toolName clk ctx req =
      some { result := some { IsError := true, StructuredContent := GoAny.nil,
                              Content := [Content.TextContent
                                ("invalid tool arguments: " ++ err.Error)] },
             err := none, delegated := none, trace := [] } := by
  simp [Adapter.makeHandler, h]

theorem Adapter.makeHandler_of_error (a : Adapter) (toolName : String)
    (clk : HandlerClock) (ctx : Context) (req : CallToolRequest) (args : GoAny)
    (hdec : decodeArguments req.Arguments = (none, args))
    (res : Result) (tr : List Event) (e : GoError)
    (hex : Executor.Execute a.executor clk.exec ctx (a.newInvocation toolName clk args)
      = some (res, tr))
    (he : res.Error = some e) :
    a.makeHandler toolName clk ctx req =
      some { result := some { IsError := true, StructuredContent := GoAny.nil,
                              Content := [Content.TextContent e.Error] },
             err := none, delegated := some (ctx, a.newInvocation toolName clk args),
             trace := tr } := by
  simp [Adapter.makeHandler, hdec, hex, he]

theorem Adapter.makeHandler_of_output (a : Adapter) (toolName : String)
    (clk : HandlerClock) (ctx : Context) (req : CallToolRequest) (args : GoAny)
    (hdec : decodeArguments req.Arguments = (none, args))
    (res : Result) (tr : List Event)
    (hex : Executor.Execute a.executor clk.exec ctx (a.newInvocation toolName clk args)
      = some (res, tr))
    (he : res.Error = none) :
    a.makeHandler toolName clk ctx req =
      some { result := some { IsError := false, StructuredContent := res.Output,
                              Content := [Content.TextContent (stringify res.Output)] },
             err := none, delegated := some (ctx, a.newInvocation toolName clk args),
             trace := tr } := by
  simp [Adapter.makeHandler, hdec, hex, he]

/-- C11: for every adapter, tool name, request and tool behaviour, one call of
the handler returns a non-nil `CallToolResult` and a nil error. -/
theorem Adapter.handler_never_returns_error (a : Adapter) (toolName : String)
    (clk : HandlerClock) (ctx : Context) (req : CallToolRequest) :
    ∃ out : HandlerOutcome,
      a.makeHandler toolName clk ctx req = some out ∧
      out.result.isSome = true ∧ out.err = none := by
  rcases hdec : decodeArguments req.Arguments with ⟨derr, args⟩
  cases derr with
  | some err =>
    exact ⟨_, Adapter.makeHandler_of_decode_error a toolName clk ctx req err args hdec, rfl, rfl⟩
  | none =>
    obtain ⟨res, tr, hex⟩ :=
      Executor.execute_total a.executor clk.exec ctx (a.newInvocation toolName clk args)
    cases he : res.Error with
    | some e =>
      exact ⟨_, Adapter.makeHandler_of_error a toolName clk ctx req args hdec res tr e hex he,
        rfl, rfl⟩
    | none =>
      exact ⟨_, Adapter.makeHandler_of_output a toolName clk ctx req args hdec res tr hex he,
        rfl, rfl⟩

theorem Adapter.handler_rejects_non_object (a : Adapter) (toolName : String)
    (clk : HandlerClock) (ctx : Context) (req : CallToolRequest)
    (h : (∃ msg : String, req.Arguments = RawMessage.invalid msg) ∨
      (∃ v : Json, req.Arguments = RawMessage.text v ∧ v ≠ Json.null ∧
        ∀ ms : List (String × Json), v ≠ Json.object ms)) :
    ∃ err : GoError,
      a.makeHandler toolName clk ctx req =
        some { result := some { IsError := true, StructuredContent := GoAny.nil,
                                Content := [Content.TextContent
                                  ("invalid tool arguments: " ++ err.Error)] },
               err := none, delegated := none, trace := [] } := by
  have key : ∃ (err : GoError) (v : GoAny), decodeArguments req.Arguments = (some err, v) := by
    rcases h with ⟨msg, hm⟩ | ⟨v, hv, hnull, hobj⟩
    · exact ⟨_, _, by rw [hm]; rfl⟩
    · rw [hv]
      cases v with
      | null => exact absurd rfl hnull
      | object ms => exact absurd rfl (hobj ms)
      | bool b => exact ⟨_, _, rfl⟩
      | number lit value => exact ⟨_, _, rfl⟩
      | string s => exact ⟨_, _, rfl⟩
      | array xs => exact ⟨_, _, rfl⟩
  obtain ⟨err, v, hdec⟩ := key
  exact ⟨err, Adapter.makeHandler_of_decode_error a toolName clk ctx req err v hdec⟩

/-- C12 at the payload `null`: the payload is non-empty and is not a JSON object,
`json.Unmarshal` reports no error for it and leaves the map nil, and the handler
goes on to execute the tool `echo` with the nil map as input and returns a
response that is not marked as an error. -/
theorem Adapter.handler_null_payload_executes :
    (RawMessage.text Json.null).nonEmpty = true ∧
    decodeArguments (RawMessage.text Json.null) = (none, GoAny.nilMap) ∧
    (adapterFor echoRegistry).makeHandler "echo" sampleHandlerClock sampleContext
        { Arguments := RawMessage.text Json.null } =
      some { result := some { IsError := false, StructuredContent := GoAny.nilMap,
                              Content := [Content.TextContent "null"] },
             err := none,
             delegated := some (sampleContext,
               (adapterFor echoRegistry).newInvocation "echo" sampleHandlerClock GoAny.nilMap),
             trace := [Event.registryGet "echo",
                       Event.toolExecute echoTool sampleContext GoAny.nilMap] } :=
  ⟨rfl, rfl, rfl⟩

/-- C13: when the argument payload is absent or empty, decoding does not fail;
the handler builds an invocation whose input is the empty, non-nil object and
whose tool name is the handler's, and passes it to the executor with the
caller's context; when that name resolves to a tool, the tool is executed with
the empty object as input. -/
theorem Adapter.handler_empty_payload (a : Adapter) (toolName : String)
    (clk : HandlerClock) (ctx : Context) (req : CallToolRequest)
    (h : req.Arguments.nonEmpty = false) :
    decodeArguments req.Arguments = (none, GoAny.obj []) ∧
    ∃ (out : HandlerOutcome) (inv : Invocation),
      a.makeHandler toolName clk ctx req = some out ∧
      out.delegated = some (ctx, inv) ∧
      inv.Input = GoAny.obj [] ∧ inv.ToolName = toolName ∧
      Option.map Prod.snd (Executor.Execute a.executor clk.exec ctx inv) = some out.trace ∧
      ∀ (ex : Executor) (reg : Registry) (t : Tool), a.executor = some ex →
        ex.registry = some reg → (reg.Get toolName).1 = (some t, none) →
        out.trace = [Event.registryGet toolName, Event.toolExecute t ctx (GoAny.obj [])] := by
  have hdec : decodeArguments req.Arguments = (none, GoAny.obj []) := by
    simp [decodeArguments, h]
  refine ⟨hdec, ?_⟩
  obtain ⟨res, tr, hex⟩ :=
    Executor.execute_total a.executor clk.exec ctx (a.newInvocation toolName clk (GoAny.obj []))
  have htrace : ∀ (ex : Executor) (reg : Registry) (t : Tool), a.executor = some ex →
      ex.registry = some reg → (reg.Get toolName).1 = (some t, none) →
      tr = [Event.registryGet toolName, Event.toolExecute t ctx (GoAny.obj [])] := by
    intro ex reg t hex1 hreg hget
    obtain ⟨hne, hl⟩ := (reg.get_eq_some_iff toolName t).mp hget
    rw [hex1, Executor.execute_of_registry ex reg hreg clk.exec ctx
      (a.newInvocation toolName clk (GoAny.obj [])) hne] at hex
    simp only [Adapter.newInvocation, hl, Option.some.injEq, Prod.mk.injEq] at hex
    exact hex.2.symm
  cases he : res.Error with
  | some e =>
    exact ⟨_, _, Adapter.makeHandler_of_error a toolName clk ctx req _ hdec res tr e hex he,
      rfl, rfl, rfl, by rw [hex]; rfl, htrace⟩
  | none =>
    exact ⟨_, _, Adapter.makeHandler_of_output a toolName clk ctx req _ hdec res tr hex he,
      rfl, rfl, rfl, by rw [hex]; rfl, htrace⟩

/-- C13 at a concrete input: `echo` called with an empty payload. -/
theorem Adapter.handler_empty_payload_witness :
    decodeArguments RawMessage.empty = (none, GoAny.obj []) ∧
    ∃ (out : HandlerOutcome) (inv : Invocation),
      (adapterFor echoRegistry).makeHandler "echo" sampleHandlerClock sampleContext
        { Arguments := RawMessage.empty } = some out ∧
      out.delegated = some (sampleContext, inv) ∧
      inv.Input = GoAny.obj [] ∧ inv.ToolName = "echo" ∧
      Option.map Prod.snd (Executor.Execute (adapterFor echoRegistry).executor
        sampleHandlerClock.exec sampleContext inv) = some out.trace ∧
      ∀ (ex : Executor) (reg : Registry) (t : Tool),
        (adapterFor echoRegistry).executor = some ex →
        ex.registry = some reg → (reg.Get "echo").1 = (some t, none) →
        out.trace = [Event.registryGet "echo",
                     Event.toolExecute t sampleContext (GoAny.obj [])] :=
  Adapter.handler_empty_payload (adapterFor echoRegistry) "echo" sampleHandlerClock
    sampleContext { Arguments := RawMessage.empty } rfl

/-- C14: when the result of the executor carries an error `e`, the handler
returns a response marked as an error whose content is the one text item with
the text `e.Error()`, with no structured output, and a nil error. -/
theorem Adapter.handler_error_response (a : Adapter) (toolName : String)
    (clk : HandlerClock) (ctx : Context) (req : CallToolRequest) (args : GoAny)
    (hdec : decodeArguments req.Arguments = (none, args))
    (res : Result) (tr : List Event) (e : GoError)
    (hex : Executor.Execute a.executor clk.exec ctx (a.newInvocation toolName clk args)
      = some (res, tr))
    (he : res.Error = some e) :
    ∃ out : HandlerOutcome,
      a.makeHandler toolName clk ctx req = some out ∧
      out.result = some { IsError := true, StructuredContent := GoAny.nil,
                          Content := [Content.TextContent e.Error] } ∧
      out.err = none :=
  ⟨_, Adapter.makeHandler_of_error a toolName clk ctx req args hdec res tr e hex he, rfl, rfl⟩

/-- C14 at a concrete input: the unregistered tool `ghost` is called; the
response is marked as an error and its text is "tool not found". -/
theorem Adapter.handler_error_response_witness :
    ∃ out : HandlerOutcome,
      (adapterFor echoRegistry).makeHandler "ghost" sampleHandlerClock sampleContext
        { Arguments := RawMessage.empty } = some out ∧
      out.result = some { IsError := true, StructuredContent := GoAny.nil,
                          Content := [Content.TextContent "tool not found"] } ∧
      out.err = none :=
  Adapter.handler_error_response (adapterFor echoRegistry) "ghost" sampleHandlerClock
    sampleContext { Arguments := RawMessage.empty } (GoAny.obj []) rfl
    { Output := GoAny.nil, Error := some GoError.ErrToolNotFound,
      Duration := sampleClock.since }
    [Event.registryGet "ghost"] GoError.ErrToolNotFound rfl rfl

/-- C15, as stated, fails at an object that holds a number out of the range of
`float64`: the payload is a well-formed JSON object and the tool `echo` is
registered and returns its input without an error, yet `json.Unmarshal` returns
an error, and the handler answers with a response marked as an error without
calling the executor. -/
theorem Adapter.handler_object_number_out_of_range :
    (echoRegistry.Get "echo").1 = (some echoTool, none) ∧
    (echoTool.Execute sampleContext
      (GoAny.obj (Json.toGoMembers [("n", Json.number "1e999" none)]))).2 = none ∧
    (adapterFor echoRegistry).makeHandler "echo" sampleHandlerClock sampleContext
        { Arguments := hugeNumberPayload } =
      some { result := some { IsError := true, StructuredContent := GoAny.nil,
                              Content := [Content.TextContent
                                ("invalid tool arguments: json: cannot unmarshal number 1e999 " ++
                                  "into Go value of type float64")] },
             err := none, delegated := none, trace := [] } :=
  ⟨rfl, rfl, rfl⟩

/-- C15, amended: when the payload is a JSON object in which every number is
in the range of `float64`, so that `json.Unmarshal` decodes it without an
error, and the tool the name resolves to returns the output `v` with no error,
the handler returns a response that is not marked as an error, whose structured
output is `v` and whose content is the one text item `stringify v`, and a nil
error.  For the output with the one field `a` set to 1 the text is the JSON
text of that object, and `echo` called with the member `msg` set to `hi`
answers with the JSON text of its input. -/
theorem Adapter.handler_success_response :
    (∀ (a : Adapter) (ex : Executor) (reg : Registry) (toolName : String) (t : Tool)
        (clk : HandlerClock) (ctx : Context) (ms : List (String × Json)) (v : GoAny),
      a.executor = some ex → ex.registry = some reg →
      (reg.Get toolName).1 = (some t, none) →
      Json.rangeErrorMembers ms = none →
      t.Execute ctx (GoAny.obj (Json.toGoMembers ms)) = (v, none) →
      ∃ out : HandlerOutcome,
        a.makeHandler toolName clk ctx { Arguments := RawMessage.text (Json.object ms) }
          = some out ∧
        out.result = some { IsError := false, StructuredContent := v,
                            Content := [Content.TextContent (stringify v)] } ∧
        out.err = none ∧
        out.trace = [Event.registryGet toolName,
                     Event.toolExecute t ctx (GoAny.obj (Json.toGoMembers ms))]) ∧
    stringify (GoAny.obj [("a", GoAny.num 1)]) = "\x7b\"a\":1\x7d" ∧
    Option.map (fun out => out.result)
        ((adapterFor echoAbRegistry).makeHandler "ab" sampleHandlerClock sampleContext
          { Arguments := RawMessage.text (Json.object []) }) =
      some (some { IsError := false, StructuredContent := GoAny.obj [("a", GoAny.num 1)],
                   Content := [Content.TextContent "\x7b\"a\":1\x7d"] }) ∧
    Option.map (fun out => out.result)
        ((adapterFor echoRegistry).makeHandler "echo" sampleHandlerClock sampleContext
          { Arguments := msgHiPayload }) =
      some (some { IsError := false, StructuredContent := GoAny.obj [("msg", GoAny.str "hi")],
                   Content := [Content.TextContent "\x7b\"msg\":\"hi\"\x7d"] }) := by
  refine ⟨?_, rfl, rfl, rfl⟩
  intro a ex reg toolName t clk ctx ms v hex1 hreg hget hrange hrun
  obtain ⟨hne, hl⟩ := (reg.get_eq_some_iff toolName t).mp hget
  have hdec : decodeArguments (RawMessage.text (Json.object ms))
      = (none, GoAny.obj (Json.toGoMembers ms)) := by
    simp [decodeArguments, RawMessage.nonEmpty, jsonUnmarshalMap, hrange, mapToAny]
  have hexec : Executor.Execute a.executor clk.exec ctx
      (a.newInvocation toolName clk (GoAny.obj (Json.toGoMembers ms)))
      = some ({ Output := v, Error := none, Duration := clk.exec.since },
          [Event.registryGet toolName,
           Event.toolExecute t ctx (GoAny.obj (Json.toGoMembers ms))]) := by
    rw [hex1, Executor.execute_of_registry ex reg hreg clk.exec ctx _ hne]
    simp only [Adapter.newInvocation, hl, hrun]
  exact ⟨_, Adapter.makeHandler_of_output a toolName clk ctx _ _ hdec _ _ hexec rfl,
    rfl, rfl, rfl⟩

/-- C15 amended, at a concrete input: `echo` called with the member `msg` set to
`hi`. -/
theorem Adapter.handler_success_response_witness :
    ∃ out : HandlerOutcome,
      (adapterFor echoRegistry).makeHandler "echo" sampleHandlerClock sampleContext
        { Arguments := RawMessage.text (Json.object [("msg", Json.string "hi")]) } = some out ∧
      out.result = some { IsError := false,
                          StructuredContent := GoAny.obj [("msg", GoAny.str "hi")],
                          Content := [Content.TextContent "\x7b\"msg\":\"hi\"\x7d"] } ∧
      out.err = none ∧
      out.trace = [Event.registryGet "echo",
                   Event.toolExecute echoTool sampleContext
                     (GoAny.obj [("msg", GoAny.str "hi")])] :=
  Adapter.handler_success_response.1 (adapterFor echoRegistry) (NewExecutor (some echoRegistry))
    echoRegistry "echo" echoTool sampleHandlerClock sampleContext
    [("msg", Json.string "hi")] (GoAny.obj [("msg", GoAny.str "hi")]) rfl rfl rfl rfl rfl

/-! ## The adapter: stringify -/

/-- C16, as stated, fails at the nil output: nil is not a string and its JSON
encoding is the text `null`, yet `stringify` returns the empty string. -/
theorem stringify_nil_is_not_json :
    jsonMarshal GoAny.nil = Except.ok "null" ∧
    stringify GoAny.nil = "" ∧
    stringify GoAny.nil ≠ "null" :=
  ⟨rfl, rfl, by decide⟩

/-- C16, amended: `stringify` returns a text for every value: the empty string
for the nil value, the string itself for a string (the empty string included),
and for every other value its JSON encoding when `json.Marshal` succeeds and its
`%v` text when `json.Marshal` fails. -/
theorem stringify_cases (v : GoAny) :
    (v = GoAny.nil → stringify v = "") ∧
    (∀ s : String, v = GoAny.str s → stringify v = s) ∧
    (v ≠ GoAny.nil → (∀ s : String, v ≠ GoAny.str s) →
      (∀ b : String, jsonMarshal v = Except.ok b → stringify v = b) ∧
      (∀ e : GoError, jsonMarshal v = Except.error e → stringify v = fmtSprintV v)) := by
  refine ⟨?_, ?_, ?_⟩
  · rintro rfl
    rfl
  · rintro s rfl
    rfl
  · intro hnil hstr
    cases v with
    | nil => exact absurd rfl hnil
    | str s => exact absurd rfl (hstr s)
    | bool b => constructor <;> intro x hx <;> simp [stringify, hx]
    | num n => constructor <;> intro x hx <;> simp [stringify, hx]
    | arr xs => constructor <;> intro x hx <;> simp [stringify, hx]
    | obj kvs => constructor <;> intro x hx <;> simp [stringify, hx]
    | fn id => constructor <;> intro x hx <;> simp [stringify, hx]
    | nilMap => constructor <;> intro x hx <;> simp [stringify, hx]
    | float f => constructor <;> intro x hx <;> simp [stringify, hx]

/-- C16 amended, at concrete inputs: the empty string, an object, and a function
value that `json.Marshal` rejects. -/
theorem stringify_cases_witness :
    stringify (GoAny.str "") = "" ∧
    stringify (GoAny.obj [("a", GoAny.num 1)]) = "\x7b\"a\":1\x7d" ∧
    stringify (GoAny.fn 255) = "0xff" :=
  ⟨(stringify_cases (GoAny.str "")).2.1 "" rfl,
    ((stringify_cases (GoAny.obj [("a", GoAny.num 1)])).2.2
      (fun h => GoAny.noConfusion h) (fun _ h => GoAny.noConfusion h)).1 _ rfl,
    ((stringify_cases (GoAny.fn 255)).2.2
      (fun h => GoAny.noConfusion h) (fun _ h => GoAny.noConfusion h)).2
      (GoError.errorsNew "json: unsupported type: func()") rfl⟩

/-! ## The adapter: registration -/

/-- In a reachable registry every tool is stored under its own name. -/
theorem Registry.Reachable.key_eq_name {r : Registry} (h : r.Reachable) :
    ∀ (n : String) (t : Tool), r.tools.lookup n = some t → t.Name = n := by
  induction h with
  | new =>
    intro n t hl
    exact Option.noConfusion hl
  | add r t _ ih =>
    cases t with
    | none => simpa [Registry.Add] using ih
    | some t =>
      simp only [Registry.Add]
      split_ifs with h1 h2
      · exact ih
      · exact ih
      · intro n u hl
        by_cases hn : n = t.Name
        · subst hn
          rw [AList.lookup_insert] at hl
          exact (Option.some.inj hl) ▸ rfl
        · rw [AList.lookup_insert_ne hn] at hl
          exact ih n u hl
  | get r name _ ih =>
    unfold Registry.Get
    split_ifs
    · exact ih
    · cases r.tools.lookup name <;> exact ih
  | listNames r _ ih => exact ih
  | listTools r _ ih => exact ih

theorem Adapter.mcpToolFor_name_ne_empty (fmtQ : String → String) (t : Tool)
    (h : t.Name ≠ "") :
    Adapter.mcpToolFor fmtQ t =
      match jsonMarshal (GoAny.obj (match t.Spec.InputSchema with
          | none => [("type", GoAny.str "object")]
          | some declared => declared)) with
      | .error err =>
        .error (GoError.wrap
          ("adapter: marshal input schema for " ++ fmtQ t.Name ++ ": " ++ err.Error) err)
      | .ok schemaBytes =>
        .ok { Name := t.Name, Title := t.Spec.Title, Description := t.Spec.Description,
              InputSchema := { text := schemaBytes,
                               source := match t.Spec.InputSchema with
                                 | none => [("type", GoAny.str "object")]
                                 | some declared => declared } } := by
  simp [Adapter.mcpToolFor, h]

theorem Adapter.registerTool_eq (a : Adapter) (srv : Guardrail.Server)
    (hsrv : a.server = some srv) (fmtQ : String → String) (t : Tool) :
    a.registerTool fmtQ t =
      match Adapter.registration fmtQ t with
      | .added d =>
        some (none, { a with
          server := some { srv with tools := srv.tools ++ [(d, { toolName := t.Name })] } })
      | .failed e => some (some e, a)
      | .panicked => none := by
  unfold Adapter.registerTool Adapter.registration
  cases Adapter.mcpToolFor fmtQ t with
  | error e => rfl
  | ok d =>
    simp only [hsrv, Server.AddTool]
    split_ifs <;> rfl

/-- C17, as stated, fails at a declared schema that does not have the type
`object`: `emptySchemaTool` declares the empty schema, it serializes, and
`AddTool` panics on it, so `registerTool` does not return and no descriptor
carries the declared schema. -/
theorem Adapter.registerTool_empty_schema_panics :
    emptySchemaTool.Spec.InputSchema = some [] ∧
    jsonMarshal (GoAny.obj []) = Except.ok "\x7b\x7d" ∧
    (adapterFor echoRegistry).registerTool sampleFmtQ emptySchemaTool = none :=
  ⟨rfl, rfl, rfl⟩

/-- C17, amended: for a tool with a non-empty name and an adapter with a
server, `registerTool` succeeds when the tool declares no input schema, and the
descriptor it passes to `AddTool` carries the schema text of the object with
the one field `type` set to `object`; when the tool declares a schema that has
the type `object` and serializes to `b`, `registerTool` succeeds and the
descriptor carries `b`; in both cases the descriptor carries the tool's name,
title and description; when the declared schema serializes but does not have
the type `object`, `AddTool` panics and nothing is registered. -/
theorem Adapter.registerTool_schema (a : Adapter) (srv : Guardrail.Server)
    (fmtQ : String → String) (t : Tool)
    (hsrv : a.server = some srv) (hname : t.Name ≠ "") :
    (t.Spec.InputSchema = none →
      a.registerTool fmtQ t = some (none, { a with server := some { srv with tools :=
        srv.tools ++ [({ Name := t.Name, Title := t.Spec.Title,
                         Description := t.Spec.Description,
                         InputSchema := { text := "\x7b\"type\":\"object\"\x7d",
                                          source := [("type", GoAny.str "object")] } },
                       { toolName := t.Name })] } })) ∧
    (∀ (declared : List (String × GoAny)) (b : String),
      t.Spec.InputSchema = some declared → jsonMarshal (GoAny.obj declared) = Except.ok b →
      schemaTypeIsObject declared = true →
      a.registerTool fmtQ t = some (none, { a with server := some { srv with tools :=
        srv.tools ++ [({ Name := t.Name, Title := t.Spec.Title,
                         Description := t.Spec.Description,
                         InputSchema := { text := b, source := declared } },
                       { toolName := t.Name })] } })) ∧
    (∀ (declared : List (String × GoAny)) (b : String),
      t.Spec.InputSchema = some declared → jsonMarshal (GoAny.obj declared) = Except.ok b →
      schemaTypeIsObject declared = false →
      a.registerTool fmtQ t = none) := by
  refine ⟨?_, ?_, ?_⟩
  · intro hnone
    have hm : jsonMarshal (GoAny.obj [("type", GoAny.str "object")])
        = Except.ok "\x7b\"type\":\"object\"\x7d" := rfl
    have hobj : schemaTypeIsObject [("type", GoAny.str "object")] = true := rfl
    simp only [Adapter.registerTool, Adapter.mcpToolFor_name_ne_empty fmtQ t hname, hnone, hm,
      hsrv, Server.AddTool, hobj, if_true]
  · intro declared b hdecl hb hobj
    simp only [Adapter.registerTool, Adapter.mcpToolFor_name_ne_empty fmtQ t hname, hdecl, hb,
      hsrv, Server.AddTool, hobj, if_true]
  · intro declared b hdecl hb hobj
    simp [Adapter.registerTool, Adapter.mcpToolFor_name_ne_empty fmtQ t hname, hdecl, hb,
      hsrv, Server.AddTool, hobj]

/-- C17 amended, at concrete inputs: `echoTool` declares no schema, `schemaTool`
declares one with the type `object`, `emptySchemaTool` declares one without. -/
theorem Adapter.registerTool_schema_witness :
    (adapterFor echoRegistry).registerTool sampleFmtQ echoTool =
      some (none, { adapterFor echoRegistry with
        server := some { NewServer { Name := "guardrail", Version := "v0.1.0" } with
          tools := (NewServer { Name := "guardrail", Version := "v0.1.0" }).tools ++
            [({ Name := "echo", Title := "Echo", Description := "returns its input",
                InputSchema := { text := "\x7b\"type\":\"object\"\x7d",
                                 source := [("type", GoAny.str "object")] } },
              { toolName := "echo" })] } }) ∧
    (adapterFor echoRegistry).registerTool sampleFmtQ schemaTool =
      some (none, { adapterFor echoRegistry with
        server := some { NewServer { Name := "guardrail", Version := "v0.1.0" } with
          tools := (NewServer { Name := "guardrail", Version := "v0.1.0" }).tools ++
            [({ Name := "schema", Title := "Schema", Description := "declares a schema",
                InputSchema :=
                  { text := "\x7b\"required\":[\"msg\"],\"type\":\"object\"\x7d",
                    source := [("type", GoAny.str "object"),
                               ("required", GoAny.arr [GoAny.str "msg"])] } },
              { toolName := "schema" })] } }) ∧
    (adapterFor echoRegistry).registerTool sampleFmtQ emptySchemaTool = none :=
  ⟨(Adapter.registerTool_schema (adapterFor echoRegistry)
      (NewServer { Name := "guardrail", Version := "v0.1.0" }) sampleFmtQ echoTool rfl
      (by decide)).1 rfl,
    (Adapter.registerTool_schema (adapterFor echoRegistry)
      (NewServer { Name := "guardrail", Version := "v0.1.0" }) sampleFmtQ schemaTool rfl
      (by decide)).2.1
      [("type", GoAny.str "object"), ("required", GoAny.arr [GoAny.str "msg"])]
      "\x7b\"required\":[\"msg\"],\"type\":\"object\"\x7d" rfl rfl rfl,
    (Adapter.registerTool_schema (adapterFor echoRegistry)
      (NewServer { Name := "guardrail", Version := "v0.1.0" }) sampleFmtQ emptySchemaTool rfl
      (by decide)).2.2 [] "\x7b\x7d" rfl rfl rfl⟩

/-- C20: in every registry reachable from `NewRegistry` every key is non-empty
and is the name of the tool stored under it; so for every tool that `ListTools`
returns the name is non-empty, `registerTool` never answers with the error
"adapter: tool name is empty", and `Get` of the tool's name returns the tool. -/
theorem Registry.key_invariant (r : Registry) (hr : r.Reachable) :
    (∀ (n : String) (t : Tool), r.tools.lookup n = some t → n ≠ "" ∧ t.Name = n) ∧
    (∀ t : Tool, t ∈ r.ListTools.1 →
      t.Name ≠ "" ∧
      (∀ (a : Adapter) (fmtQ : String → String) (res : Option GoError × Adapter),
        a.registerTool fmtQ t = some res →
        res.1 ≠ some (GoError.errorsNew "adapter: tool name is empty")) ∧
      (r.Get t.Name).1 = (some t, none)) := by
  have hkey : ∀ (n : String) (t : Tool), r.tools.lookup n = some t → n ≠ "" ∧ t.Name = n := by
    intro n t hl
    refine ⟨?_, hr.key_eq_name n t hl⟩
    intro hn
    rw [hn, hr.empty_not_key] at hl
    exact Option.noConfusion hl
  refine ⟨hkey, ?_⟩
  intro t ht
  obtain ⟨n, hn⟩ := (r.mem_listTools_iff t).mp ht
  obtain ⟨hne, hname⟩ := hkey n t hn
  have hne2 : t.Name ≠ "" := by rw [hname]; exact hne
  refine ⟨hne2, ?_, ?_⟩
  · intro a fmtQ res hres
    unfold Adapter.registerTool at hres
    rw [Adapter.mcpToolFor_name_ne_empty fmtQ t hne2] at hres
    cases hm : jsonMarshal (GoAny.obj (match t.Spec.InputSchema with
        | none => [("type", GoAny.str "object")]
        | some declared => declared)) with
    | error err =>
      rw [hm] at hres
      simp only [Option.some.injEq] at hres
      rw [← hres]
      simp
    | ok b =>
      rw [hm] at hres
      cases hs : a.server with
      | none => simp [hs] at hres
      | some srv =>
        simp only [hs] at hres
        split at hres
        · exact Option.noConfusion hres
        · simp only [Option.some.injEq] at hres
          rw [← hres]
          simp
  · rw [Registry.get_eq_some_iff]
    exact ⟨hne2, by rw [hname]; exact hn⟩

/-- C20 at a concrete input: the registry that holds `echoTool` and `failTool`. -/
theorem Registry.key_invariant_witness :
    (∀ (n : String) (t : Tool), echoFailRegistry.tools.lookup n = some t →
      n ≠ "" ∧ t.Name = n) ∧
    (∀ t : Tool, t ∈ echoFailRegistry.ListTools.1 →
      t.Name ≠ "" ∧
      (∀ (a : Adapter) (fmtQ : String → String) (res : Option GoError × Adapter),
        a.registerTool fmtQ t = some res →
        res.1 ≠ some (GoError.errorsNew "adapter: tool name is empty")) ∧
      (echoFailRegistry.Get t.Name).1 = (some t, none)) :=
  Registry.key_invariant echoFailRegistry
    (Registry.Reachable.add _ _ (Registry.Reachable.add _ _ Registry.Reachable.new))

theorem Registry.Reachable.listTools_names {r : Registry} (h : r.Reachable) :
    r.ListTools.1.map Tool.Name = r.ListNames.1 := by
  simp only [Registry.ListTools, Registry.ListNames, List.map_map]
  apply List.map_congr_left
  rintro ⟨n, t⟩ hmem
  exact h.key_eq_name n t (AList.mem_lookup_iff.mpr hmem)

theorem Adapter.makeHandler_delegated (a : Adapter) (toolName : String)
    (clk : HandlerClock) (ctx : Context) (req : CallToolRequest) (out : HandlerOutcome)
    (h : a.makeHandler toolName clk ctx req = some out) (c : Context) (inv : Invocation)
    (hd : out.delegated = some (c, inv)) : inv.ToolName = toolName := by
  rcases hdec : decodeArguments req.Arguments with ⟨derr, args⟩
  cases derr with
  | some err =>
    rw [Adapter.makeHandler_of_decode_error a toolName clk ctx req err args hdec] at h
    cases h
    exact Option.noConfusion hd
  | none =>
    obtain ⟨res, tr, hex⟩ :=
      Executor.execute_total a.executor clk.exec ctx (a.newInvocation toolName clk args)
    cases he : res.Error with
    | some e =>
      rw [Adapter.makeHandler_of_error a toolName clk ctx req args hdec res tr e hex he] at h
      cases h
      cases hd
      rfl
    | none =>
      rw [Adapter.makeHandler_of_output a toolName clk ctx req args hdec res tr hex he] at h
      cases h
      cases hd
      rfl

theorem Adapter.registerTool_fst (a : Adapter) (srv : Guardrail.Server)
    (hsrv : a.server = some srv) (fmtQ : String → String) (t : Tool) :
    (a.registerTool fmtQ t).map Prod.fst =
      match Adapter.registration fmtQ t with
      | .added _ => some none
      | .failed e => some (some e)
      | .panicked => none := by
  rw [Adapter.registerTool_eq a srv hsrv fmtQ t]
  cases Adapter.registration fmtQ t <;> rfl

theorem Adapter.registration_added (fmtQ : String → String) (t : Tool) (d : McpTool)
    (h : Adapter.registration fmtQ t = Registration.added d) :
    Adapter.mcpToolFor fmtQ t = Except.ok d ∧ d.Name = t.Name := by
  unfold Adapter.registration at h
  cases hm : Adapter.mcpToolFor fmtQ t with
  | error e => simp [hm] at h
  | ok d2 =>
    simp only [hm] at h
    split_ifs at h
    cases h
    refine ⟨rfl, ?_⟩
    by_cases hn : t.Name = ""
    · simp [Adapter.mcpToolFor, hn] at hm
    · rw [Adapter.mcpToolFor_name_ne_empty fmtQ t hn] at hm
      split at hm
      · exact Except.noConfusion hm
      · cases hm
        rfl

theorem Adapter.registerEach_eq (fmtQ : String → String) (ts : List Tool) :
    ∀ (a : Adapter) (srv : Guardrail.Server), a.server = some srv →
      a.registerEach fmtQ ts = (Adapter.passResult fmtQ ts).map fun err =>
        (err, { a with
          server := some { srv with tools := srv.tools ++ Adapter.addToolCalls fmtQ ts } }) := by
  induction ts with
  | nil =>
    intro a srv hsrv
    simp [Adapter.registerEach, Adapter.passResult, Adapter.addToolCalls, ← hsrv]
  | cons t ts ih =>
    intro a srv hsrv
    unfold Adapter.registerEach
    rw [Adapter.registerTool_eq a srv hsrv fmtQ t]
    cases hreg : Adapter.registration fmtQ t with
    | added d =>
      simp only []
      rw [ih _ { srv with tools := srv.tools ++ [(d, { toolName := t.Name })] } rfl]
      simp [Adapter.passResult, Adapter.addToolCalls, hreg]
    | failed e => simp [Adapter.passResult, Adapter.addToolCalls, hreg, ← hsrv]
    | panicked => simp [Adapter.passResult, hreg]

theorem Adapter.mem_addToolCalls (fmtQ : String → String) (ts : List Tool)
    (en : McpTool × ToolHandler) (h : en ∈ Adapter.addToolCalls fmtQ ts) :
    ∃ u : Tool, u ∈ ts ∧ Adapter.registration fmtQ u = Registration.added en.1 ∧
      en.2 = { toolName := u.Name } := by
  induction ts with
  | nil => simp [Adapter.addToolCalls] at h
  | cons t ts ih =>
    unfold Adapter.addToolCalls at h
    cases hreg : Adapter.registration fmtQ t with
    | added d =>
      simp only [hreg, List.mem_cons] at h
      rcases h with rfl | h
      · exact ⟨t, List.mem_cons_self _ _, hreg, rfl⟩
      · obtain ⟨u, hu, h1, h2⟩ := ih h
        exact ⟨u, List.mem_cons_of_mem _ hu, h1, h2⟩
    | failed e => simp [hreg] at h
    | panicked => simp [hreg] at h

theorem Adapter.passResult_eq_error (fmtQ : String → String) (ts : List Tool) (e : GoError)
    (h : Adapter.passResult fmtQ ts = some (some e)) :
    ∃ t : Tool, t ∈ ts ∧ Adapter.registration fmtQ t = Registration.failed e := by
  induction ts with
  | nil => simp [Adapter.passResult] at h
  | cons t ts ih =>
    unfold Adapter.passResult at h
    cases hreg : Adapter.registration fmtQ t with
    | added d =>
      simp only [hreg] at h
      obtain ⟨u, hu, h1⟩ := ih h
      exact ⟨u, List.mem_cons_of_mem _ hu, h1⟩
    | failed e2 =>
      simp only [hreg, Option.some.injEq] at h
      exact ⟨t, List.mem_cons_self _ _, by rw [hreg, h]⟩
    | panicked => simp [hreg] at h

theorem Adapter.passResult_eq_nil (fmtQ : String → String) (ts : List Tool)
    (h : Adapter.passResult fmtQ ts = some none) :
    ∀ t : Tool, t ∈ ts →
      ∃ d : McpTool, Adapter.registration fmtQ t = Registration.added d ∧
        (d, ({ toolName := t.Name } : ToolHandler)) ∈ Adapter.addToolCalls fmtQ ts := by
  induction ts with
  | nil => intro t ht; simp at ht
  | cons u ts ih =>
    intro t ht
    unfold Adapter.passResult at h
    cases hreg : Adapter.registration fmtQ u with
    | added d =>
      simp only [hreg] at h
      rcases List.mem_cons.mp ht with rfl | ht
      · exact ⟨d, hreg, by simp [Adapter.addToolCalls, hreg]⟩
      · obtain ⟨d2, h1, h2⟩ := ih h t ht
        exact ⟨d2, h1, by simp [Adapter.addToolCalls, hreg, h2]⟩
    | failed e => simp [hreg] at h
    | panicked => simp [hreg] at h

theorem Adapter.passResult_ne_none (fmtQ : String → String) (ts : List Tool)
    (h : ∀ t : Tool, t ∈ ts → Adapter.registration fmtQ t ≠ Registration.panicked) :
    ∃ err : Option GoError, Adapter.passResult fmtQ ts = some err := by
  induction ts with
  | nil => exact ⟨none, rfl⟩
  | cons t ts ih =>
    unfold Adapter.passResult
    cases hreg : Adapter.registration fmtQ t with
    | added d => exact ih (fun u hu => h u (List.mem_cons_of_mem _ hu))
    | failed e => exact ⟨some e, rfl⟩
    | panicked => exact absurd hreg (h t (List.mem_cons_self _ _))

theorem Adapter.passResult_append (fmtQ : String → String) (pre post : List Tool) (t : Tool)
    (e : GoError)
    (hpre : ∀ u : Tool, u ∈ pre → ∃ d : McpTool,
      Adapter.registration fmtQ u = Registration.added d)
    (ht : Adapter.registration fmtQ t = Registration.failed e) :
    Adapter.passResult fmtQ (pre ++ t :: post) = some (some e) ∧
    (Adapter.addToolCalls fmtQ (pre ++ t :: post)).length = pre.length := by
  induction pre with
  | nil => simp [Adapter.passResult, Adapter.addToolCalls, ht]
  | cons u pre ih =>
    obtain ⟨d, hd⟩ := hpre u (List.mem_cons_self _ _)
    have h := ih (fun w hw => hpre w (List.mem_cons_of_mem _ hw))
    simp [Adapter.passResult, Adapter.addToolCalls, hd, h.1, h.2]

theorem Adapter.addToolCalls_names_sublist (fmtQ : String → String) (ts : List Tool) :
    ((Adapter.addToolCalls fmtQ ts).map fun en => en.1.Name).Sublist (ts.map Tool.Name) := by
  induction ts with
  | nil => simp [Adapter.addToolCalls]
  | cons t ts ih =>
    unfold Adapter.addToolCalls
    cases hreg : Adapter.registration fmtQ t with
    | added d =>
      simp only [List.map_cons, (Adapter.registration_added fmtQ t d hreg).2]
      exact ih.cons₂ _
    | failed e => simp
    | panicked => simp

theorem Adapter.addToolCalls_name_ne (fmtQ : String → String) (ts : List Tool)
    (hnodup : (ts.map Tool.Name).Nodup) (t : Tool) (ht : t ∈ ts)
    (hnot : ∀ d : McpTool, Adapter.registration fmtQ t ≠ Registration.added d) :
    ∀ en : McpTool × ToolHandler, en ∈ Adapter.addToolCalls fmtQ ts → en.1.Name ≠ t.Name := by
  intro en hen hname
  obtain ⟨u, hu, hadd, _⟩ := Adapter.mem_addToolCalls fmtQ ts en hen
  have hun : u.Name = t.Name := by
    rw [← (Adapter.registration_added fmtQ u en.1 hadd).2, hname]
  have hut : u = t := List.inj_on_of_nodup_map hnodup hu ht hun
  rw [hut] at hadd
  exact hnot en.1 hadd

theorem Adapter.registration_of_fst (a : Adapter) (srv : Guardrail.Server)
    (hsrv : a.server = some srv) (fmtQ : String → String) (t : Tool) :
    ((a.registerTool fmtQ t).map Prod.fst = some none →
      ∃ d : McpTool, Adapter.registration fmtQ t = Registration.added d) ∧
    (∀ e : GoError, (a.registerTool fmtQ t).map Prod.fst = some (some e) →
      Adapter.registration fmtQ t = Registration.failed e) ∧
    (a.registerTool fmtQ t ≠ none → Adapter.registration fmtQ t ≠ Registration.panicked) := by
  have hfst := Adapter.registerTool_fst a srv hsrv fmtQ t
  have heq := Adapter.registerTool_eq a srv hsrv fmtQ t
  cases hreg : Adapter.registration fmtQ t with
  | added d =>
    rw [hreg] at hfst
    exact ⟨fun _ => ⟨d, rfl⟩, fun e h => by rw [hfst] at h; simp at h,
      fun _ h => Registration.noConfusion h⟩
  | failed e2 =>
    rw [hreg] at hfst
    refine ⟨fun h => by rw [hfst] at h; simp at h, fun e h => ?_,
      fun _ h => Registration.noConfusion h⟩
    rw [hfst] at h
    simp only [Option.some.injEq] at h
    rw [h]
  | panicked =>
    rw [hreg] at hfst heq
    exact ⟨fun h => by rw [hfst] at h; simp at h, fun e h => by rw [hfst] at h; simp at h,
      fun h _ => h heq⟩

/-- C18: for an adapter with a server and a reachable registry, and for every
order `ts` in which the loop may visit the registry's tools: `RegisterAllTools`
is the loop over `ListTools`; when the registrations before a tool return nil
and the registration of that tool returns an error, the pass returns that
error, only the tools before it have been added, and no `AddTool` call was made
under that tool's name; an error the pass returns is the registration error of
a tool of the registry, which was not added; when the pass returns nil, for
every tool exactly one `AddTool` call was made under its name, with the tool's
descriptor, and every handler passed to `AddTool` builds invocations whose tool
name is the name it was registered under; and the pass returns, with an error
when the registration of some tool fails, unless `AddTool` panics on a tool. -/
theorem Adapter.registerAll_fail_fast (a : Adapter) (srv : Guardrail.Server) (reg : Registry)
    (hsrv : a.server = some srv) (hreg : a.registry = some reg) (hr : reg.Reachable)
    (fmtQ : String → String) (ts : List Tool) (hts : ts.Perm reg.ListTools.1) :
    Adapter.RegisterAllTools (some a) fmtQ =
      (a.registerEach fmtQ reg.ListTools.1).map (fun p => (p.1, some p.2)) ∧
    (∀ (pre post : List Tool) (t : Tool) (e : GoError), ts = pre ++ t :: post →
      (∀ u : Tool, u ∈ pre → (a.registerTool fmtQ u).map Prod.fst = some none) →
      (a.registerTool fmtQ t).map Prod.fst = some (some e) →
      ∃ added : List (McpTool × ToolHandler),
        a.registerEach fmtQ ts = some (some e,
          { a with server := some { srv with tools := srv.tools ++ added } }) ∧
        added.length = pre.length ∧
        ∀ en : McpTool × ToolHandler, en ∈ added → en.1.Name ≠ t.Name) ∧
    (∀ (e : GoError) (a1 : Adapter), a.registerEach fmtQ ts = some (some e, a1) →
      ∃ (t : Tool) (added : List (McpTool × ToolHandler)),
        t ∈ ts ∧ (a.registerTool fmtQ t).map Prod.fst = some (some e) ∧
        a1 = { a with server := some { srv with tools := srv.tools ++ added } } ∧
        ∀ en : McpTool × ToolHandler, en ∈ added → en.1.Name ≠ t.Name) ∧
    (∀ a1 : Adapter, a.registerEach fmtQ ts = some (none, a1) →
      ∃ added : List (McpTool × ToolHandler),
        a1 = { a with server := some { srv with tools := srv.tools ++ added } } ∧
        (∀ t : Tool, t ∈ ts →
          ∃ d : McpTool, Adapter.mcpToolFor fmtQ t = Except.ok d ∧ d.Name = t.Name ∧
            (d, ({ toolName := t.Name } : ToolHandler)) ∈ added ∧
            (added.map fun en => en.1.Name).count t.Name = 1) ∧
        (∀ en : McpTool × ToolHandler, en ∈ added →
          en.2.toolName = en.1.Name ∧
          ∀ (a2 : Adapter) (clk : HandlerClock) (ctx : Context) (req : CallToolRequest)
            (out : HandlerOutcome) (c : Context) (inv : Invocation),
            a2.makeHandler en.2.toolName clk ctx req = some out →
            out.delegated = some (c, inv) → inv.ToolName = en.1.Name)) ∧
    ((∀ t : Tool, t ∈ ts → a.registerTool fmtQ t ≠ none) →
      ∃ res : Option GoError × Adapter, a.registerEach fmtQ ts = some res ∧
        ∀ (t : Tool) (e : GoError), t ∈ ts →
          (a.registerTool fmtQ t).map Prod.fst = some (some e) → res.1.isSome = true) := by
  have hnodup : (ts.map Tool.Name).Nodup := by
    rw [(hts.map Tool.Name).nodup_iff, hr.listTools_names]
    exact reg.listNames_nodup
  have heach := Adapter.registerEach_eq fmtQ ts a srv hsrv
  refine ⟨by simp [Adapter.RegisterAllTools, hsrv, hreg], ?_, ?_, ?_, ?_⟩
  · intro pre post t e hsplit hpre hfail
    have ht : t ∈ ts := by rw [hsplit]; simp
    have hfailed := (Adapter.registration_of_fst a srv hsrv fmtQ t).2.1 e hfail
    have happ := Adapter.passResult_append fmtQ pre post t e
      (fun u hu => (Adapter.registration_of_fst a srv hsrv fmtQ u).1 (hpre u hu)) hfailed
    rw [← hsplit] at happ
    refine ⟨Adapter.addToolCalls fmtQ ts, ?_, happ.2, ?_⟩
    · rw [heach, happ.1]
      rfl
    · exact Adapter.addToolCalls_name_ne fmtQ ts hnodup t ht
        (fun d hd => by rw [hfailed] at hd; exact Registration.noConfusion hd)
  · intro e a1 hres
    rw [heach] at hres
    cases hp : Adapter.passResult fmtQ ts with
    | none => rw [hp] at hres; exact Option.noConfusion hres
    | some err =>
      rw [hp] at hres
      simp only [Option.map_some', Option.some.injEq, Prod.mk.injEq] at hres
      obtain ⟨herr, ha1⟩ := hres
      rw [herr] at hp
      obtain ⟨t, ht, hfailed⟩ := Adapter.passResult_eq_error fmtQ ts e hp
      refine ⟨t, Adapter.addToolCalls fmtQ ts, ht, ?_, ha1.symm, ?_⟩
      · rw [Adapter.registerTool_fst a srv hsrv fmtQ t, hfailed]
      · exact Adapter.addToolCalls_name_ne fmtQ ts hnodup t ht
          (fun d hd => by rw [hfailed] at hd; exact Registration.noConfusion hd)
  · intro a1 hres
    rw [heach] at hres
    cases hp : Adapter.passResult fmtQ ts with
    | none => rw [hp] at hres; exact Option.noConfusion hres
    | some err =>
      rw [hp] at hres
      simp only [Option.map_some', Option.some.injEq, Prod.mk.injEq] at hres
      obtain ⟨herr, ha1⟩ := hres
      rw [herr] at hp
      refine ⟨Adapter.addToolCalls fmtQ ts, ha1.symm, ?_, ?_⟩
      · intro t ht
        obtain ⟨d, hd, hmem⟩ := Adapter.passResult_eq_nil fmtQ ts hp t ht
        obtain ⟨hok, hname⟩ := Adapter.registration_added fmtQ t d hd
        refine ⟨d, hok, hname, hmem, ?_⟩
        apply List.count_eq_one_of_mem
          ((Adapter.addToolCalls_names_sublist fmtQ ts).nodup hnodup)
        rw [← hname]
        exact List.mem_map.mpr ⟨_, hmem, rfl⟩
      · intro en hen
        obtain ⟨u, _, hadd, h2⟩ := Adapter.mem_addToolCalls fmtQ ts en hen
        have hname : en.2.toolName = en.1.Name := by
          rw [h2, (Adapter.registration_added fmtQ u en.1 hadd).2]
        refine ⟨hname, ?_⟩
        intro a2 clk ctx req out c inv hcall hd
        rw [← hname]
        exact Adapter.makeHandler_delegated a2 en.2.toolName clk ctx req out hcall c inv hd
  · intro hnopanic
    obtain ⟨err, hp⟩ := Adapter.passResult_ne_none fmtQ ts
      (fun t ht => (Adapter.registration_of_fst a srv hsrv fmtQ t).2.2 (hnopanic t ht))
    refine ⟨_, by rw [heach, hp]; rfl, ?_⟩
    intro t e ht hfail
    have hfailed := (Adapter.registration_of_fst a srv hsrv fmtQ t).2.1 e hfail
    cases err with
    | some e2 => rfl
    | none =>
      obtain ⟨d, hd, _⟩ := Adapter.passResult_eq_nil fmtQ ts hp t ht
      rw [hfailed] at hd
      exact Registration.noConfusion hd

/-- C18 at a concrete input: the adapter over the registry that holds `echoTool`
and `badSchemaTool`, the tools visited in the order of `ListTools`, in which
`badSchemaTool` comes first: the pass returns the error of its registration and
nothing is added. -/
theorem Adapter.registerAll_fail_fast_witness :
    echoBadRegistry.ListTools.1 = [] ++ badSchemaTool :: [echoTool] ∧
    ∃ added : List (McpTool × ToolHandler),
      (adapterFor echoBadRegistry).registerEach sampleFmtQ echoBadRegistry.ListTools.1 =
        some (some (GoError.wrap
            "adapter: marshal input schema for \"bad\": json: unsupported type: func()"
            (GoError.errorsNew "json: unsupported type: func()")),
          { adapterFor echoBadRegistry with
            server := some { NewServer { Name := "guardrail", Version := "v0.1.0" } with
              tools := (NewServer { Name := "guardrail", Version := "v0.1.0" }).tools ++
                added } }) ∧
      added.length = ([] : List Tool).length ∧
      ∀ en : McpTool × ToolHandler, en ∈ added → en.1.Name ≠ badSchemaTool.Name :=
  ⟨rfl,
    (Adapter.registerAll_fail_fast (adapterFor echoBadRegistry)
      (NewServer { Name := "guardrail", Version := "v0.1.0" }) echoBadRegistry rfl rfl
      (Registry.Reachable.add _ _ (Registry.Reachable.add _ _ Registry.Reachable.new))
      sampleFmtQ echoBadRegistry.ListTools.1 (List.Perm.refl _)).2.1
      [] [echoTool] badSchemaTool
      (GoError.wrap "adapter: marshal input schema for \"bad\": json: unsupported type: func()"
        (GoError.errorsNew "json: unsupported type: func()"))
      rfl (fun u hu => absurd hu (List.not_mem_nil u)) rfl⟩

end Guardrail
